import Mathlib

/-!
Verification development for the Liso web server core (io.c, http_parser.c,
request_handler.c).  Bytes are modelled as natural numbers (C char values),
byte buffers as lists.  Machine integer overflow is irrelevant at the sizes
involved; sizes and cursors are natural numbers, and the content-length
sentinel -1 is modelled with an integer field as in the source.

Code declared in headers that are not part of the sources (http_client.c,
io.h, config.h) is modelled from the spec; every such definition carries a
doc comment starting with: Modelled from the spec.
-/

namespace Liso

/-- Helper turning a Lean string literal into the list of its byte values. -/
def str (s : String) : List Nat := s.toList.map Char.toNat

/-! Embedding of io.c.  The buffer structure buf_t has a backing byte list
together with the three size fields of the source.  The base buffer size
macro BUFSIZE lives in the missing io.h, so it is threaded through as an
explicit parameter B. -/

structure buf_t where
  buf : List Nat
  bufsize : Nat
  datasize : Nat
  pos : Nat
deriving DecidableEq, Repr

/-- Source io.c full: the buffer is full and needs expanding when
datasize + (BUFSIZE >> 1) > bufsize. -/
def full (B : Nat) (bp : buf_t) : Bool := decide (bp.datasize + B / 2 > bp.bufsize)

/-- Source io.c empty: the buffer should shrink when the free space
bufsize - datasize + pos exceeds BUFSIZE. -/
def empty (B : Nat) (bp : buf_t) : Bool := decide (bp.bufsize - bp.datasize + bp.pos > B)

/-- Source io.c io_shrink: move the live region to the front of the buffer,
reset pos, and cut the buffer size by half of the free space.  The realloc
keeps the bytes beyond the moved region unchanged, which the second take
reproduces. -/
def io_shrink (bp : buf_t) : buf_t :=
  let freespace := bp.bufsize - bp.datasize + bp.pos
  let ds := bp.datasize - bp.pos
  let bs := bp.bufsize - freespace / 2
  { buf := (bp.buf.drop bp.pos).take ds ++ (bp.buf.drop ds).take (bs - ds)
    bufsize := bs
    datasize := ds
    pos := 0 }

/-- Write of one successful recv result into the free tail of the buffer
at offset datasize, advancing datasize. -/
def recv_fill (bp : buf_t) (data : List Nat) : buf_t :=
  { bp with
    buf := bp.buf.take bp.datasize ++ data ++ bp.buf.drop (bp.datasize + data.length)
    datasize := bp.datasize + data.length }

/-- Source io.c io_recv growth: when full fires after a fill, add half the
current capacity.  The realloc tail is unspecified garbage, modelled as
zeros. -/
def grow_check (B : Nat) (bp : buf_t) : buf_t :=
  if full B bp then
    { bp with
      bufsize := bp.bufsize + bp.bufsize / 2
      buf := bp.buf ++ List.replicate (bp.bufsize / 2) 0 }
  else bp

/-- Source io.c io_recv loop body: one iteration after a successful recv of
the byte list data (already bounded by the requested capacity): write the
bytes, then grow if the fill threshold is crossed. -/
def recv_step (B : Nat) (bp : buf_t) (data : List Nat) : buf_t :=
  grow_check B (recv_fill bp data)

/-- Source io.c io_recv: repeatedly recv into the free tail, asking for
bufsize - datasize - 1 bytes each time.  The socket is modelled as the list
of payloads the kernel hands back, each truncated to the requested
capacity; an empty result is a zero-length read, which the source treats as
the peer closing (return 0).  When the payload list is exhausted the final
recv call fails: with EAGAIN or EWOULDBLOCK if again is true (return
datasize), otherwise with a hard error (return -1, the recv result). -/
def io_recv (B : Nat) (bp : buf_t) (again : Bool) : List (List Nat) → Int × buf_t
  | [] => if again then ((bp.datasize : Int), bp) else (-1, bp)
  | c :: cs =>
    if (c.take (bp.bufsize - bp.datasize - 1)).length = 0 then (0, bp)
    else io_recv B (recv_step B bp (c.take (bp.bufsize - bp.datasize - 1))) again cs

/-- Result of one send system call inside io_send: n bytes were written, or
the call would block, or a hard error occurred. -/
inductive SendEv where
  | ok (n : Nat)
  | wouldblock
  | err
deriving DecidableEq, Repr

/-- Source io.c io_send epilogue: after the send loop finishes without a
hard error, shrink the buffer if empty fires, and return the byte count. -/
def finishSend (B : Nat) (bp : buf_t) (sent : Nat) : Int × buf_t :=
  ((sent : Int), if empty B bp then io_shrink bp else bp)

/-- Source io.c io_send loop: while pos < datasize, send the remaining
bytes; a successful send of n bytes (bounded by the remaining count)
advances pos, EAGAIN or EWOULDBLOCK breaks out, and a hard error returns -1
at once, skipping the shrink.  The kernel responses are modelled as an
event list; running out of events behaves like would-block. -/
def io_send_loop (B : Nat) (bp : buf_t) (sent : Nat) : List SendEv → Int × buf_t
  | [] => finishSend B bp sent
  | e :: es =>
    if bp.pos < bp.datasize then
      match e with
      | .ok n =>
        let m := min n (bp.datasize - bp.pos)
        io_send_loop B { bp with pos := bp.pos + m } (sent + m) es
      | .wouldblock => finishSend B bp sent
      | .err => (-1, bp)
    else finishSend B bp sent

/-- Source io.c io_send: the loop starting with zero bytes sent. -/
def io_send (B : Nat) (bp : buf_t) (es : List SendEv) : Int × buf_t :=
  io_send_loop B bp 0 es

/-- Source io.c pipe_t: scratch buffer with datasize and offset cursors.
The from_fd field is not modelled; instead io_pipe reports whether it
closed the source descriptor. -/
structure pipe_t where
  buf : List Nat
  datasize : Nat
  offset : Nat
deriving DecidableEq, Repr

/-- Result of the single read call a pipe step may perform: a hard error
(read returns -1) or a payload, empty at end of file. -/
inductive ReadEv where
  | rerr
  | rok (data : List Nat)
deriving DecidableEq, Repr

/-- Result of the single send call a pipe step may perform: a hard error
(send returns -1) or n bytes written. -/
inductive PipeSendEv where
  | serr
  | sok (n : Nat)
deriving DecidableEq, Repr

/-- Source io.c io_pipe send part: send the remaining scratch bytes; on
error return -1 and close the source, otherwise advance offset by the
bytes written (bounded by the remaining count) and return 0.  The third
component records whether the source descriptor was closed. -/
def pipe_send (pp : pipe_t) (se : PipeSendEv) : Int × pipe_t × Bool :=
  match se with
  | .serr => (-1, pp, true)
  | .sok n =>
    let m := min n (pp.datasize - pp.offset)
    (0, { pp with offset := pp.offset + m }, false)

/-- Source io.c io_pipe: when the scratch buffer is exhausted
(datasize <= offset), read up to BUFSIZE bytes from the source.  A read
error closes the source and returns -1 (the source also stores the -1 read
result into datasize; the struct is destroyed by the caller, so the model
leaves the field).  A zero-length read closes the source and returns 1.
Otherwise the scratch buffer is refilled, offset resets to 0, and the send
part runs. -/
def io_pipe (B : Nat) (pp : pipe_t) (rd : ReadEv) (se : PipeSendEv) : Int × pipe_t × Bool :=
  if pp.datasize ≤ pp.offset then
    match rd with
    | .rerr => (-1, pp, true)
    | .rok data =>
      if (data.take B).length = 0 then (1, { pp with datasize := 0 }, true)
      else pipe_send { pp with buf := data.take B ++ pp.buf.drop (data.take B).length
                               datasize := (data.take B).length
                               offset := 0 } se
  else pipe_send pp se

/-- Source io.c init_pipe: fresh pipe with offset 0 and datasize 0 (the
scratch buffer is uninitialised; the model starts it empty). -/
def init_pipe : pipe_t := { buf := [], datasize := 0, offset := 0 }

/-- Source io.c init_buf: fresh buffer of capacity BUFSIZE with datasize 0
and pos 0 (malloc leaves the contents uninitialised; modelled as zeros). -/
def init_buf (B : Nat) : buf_t :=
  { buf := List.replicate B 0, bufsize := B, datasize := 0, pos := 0 }

/-- Driver that repeatedly steps io_pipe over a source file holding the
byte list src, in the regime of claim C9: each read returns up to the
scratch capacity from the remaining file and every send succeeds in full.
Returns the number of refill reads that loaded data, together with the
trace of (step result, source closed this step) pairs.  The fuel bounds
the recursion and is irrelevant when large enough. -/
def pipe_drive (B : Nat) (pp : pipe_t) (src : List Nat) : Nat → Nat × List (Int × Bool)
  | 0 => (0, [])
  | fuel + 1 =>
    let st := io_pipe B pp (.rok (src.take B)) (.sok B)
    let didRefill : Nat := if pp.datasize ≤ pp.offset ∧ src.take B ≠ [] then 1 else 0
    let src' := if pp.datasize ≤ pp.offset then src.drop B else src
    if st.1 = 0 then
      let r2 := pipe_drive B st.2.1 src' fuel
      (didRefill + r2.1, (st.1, st.2.2) :: r2.2)
    else (didRefill, [(st.1, st.2.2)])

/-! Embedding of http_parser.c and request_handler.c.  The request, client
and header structures are declared in the missing http_client.h; their
fields are reconstructed from the uses in the sources and from the spec
data model.  Status codes come from the missing config.h and are modelled
from the spec section 6 list. -/

/-- Modelled from the spec: HTTP status codes produced by the server
(config.h is not among the sources). -/
def BAD_REQUEST : Int := 400

/-- Modelled from the spec: 405 Method Not Allowed. -/
def METHOD_NOT_ALLOWED : Int := 405

/-- Modelled from the spec: 411 Length Required. -/
def LENGTH_REQUIRED : Int := 411

/-- Modelled from the spec: 501 Not Implemented. -/
def NOT_IMPLEMENTED : Int := 501

/-- Modelled from the spec: 505 HTTP Version Not Supported. -/
def HTTP_VERSION_NOT_SUPPORTED : Int := 505

/-- Lowercase an ASCII byte. -/
def lowerByte (c : Nat) : Nat := if 65 ≤ c ∧ c ≤ 90 then c + 32 else c

/-- Modelled from the spec: strcicmp (declared in the missing
http_client.h) compares two strings case-insensitively; the model returns
true exactly when the source function returns 0 (equal). -/
def strcicmp (a b : List Nat) : Bool := a.map lowerByte == b.map lowerByte

/-- Header entry: key and value strings, as in http_header_t. -/
structure http_header_t where
  key : List Nat
  val : List Nat
deriving DecidableEq, Repr

/-- Request object http_request_t: method, uri and version from the
request line, the prepend-ordered header list, the content length with
sentinel -1 for request headers not finished, and the body view.  The
source keeps the version token in a local buffer of parse_request_line;
the spec data model lists it as a Request field, so the model records it. -/
structure http_request_t where
  method : List Nat
  uri : List Nat
  version : List Nat
  headers : List http_header_t
  content_len : Int
  body : List Nat
deriving DecidableEq, Repr

/-- Connection state http_client_t, restricted to what http_parse touches:
the in-flight request and the unread part of the input buffer (the region
between pos and datasize of the input GrowBuffer; advancing pos is
dropping from the front, receiving appends at the back). -/
structure http_client_t where
  req : Option http_request_t
  inbuf : List Nat
deriving DecidableEq, Repr

/-- Observable dispatch outcome of one http_parse call: handler dispatches
with the request they received and their result, and error responses sent
by end_request. -/
inductive Event where
  | dispatched (req : http_request_t) (result : Int)
  | errorResponse (code : Int)
deriving DecidableEq, Repr

/-- White space characters of the C isspace used by sscanf. -/
def isCSpace (c : Nat) : Bool :=
  c = 32 || c = 9 || c = 10 || c = 11 || c = 12 || c = 13

/-- Single pass of the whitespace-run tokenisation performed by sscanf:
cur holds the bytes of the token being read, in reverse; a space finishes
the current token, any other byte extends it. -/
def ctokensAux : List Nat → List Nat → List (List Nat)
  | [], cur => if cur = [] then [] else [cur.reverse]
  | c :: rest, cur =>
    if isCSpace c then
      if cur = [] then ctokensAux rest []
      else cur.reverse :: ctokensAux rest []
    else ctokensAux rest (c :: cur)

/-- Whitespace-run tokenisation performed by sscanf with three percent-s
conversions: skip spaces, read a maximal non-space run, repeat.  The
source reads at most three tokens; the model produces them all and the
callers look at the first three. -/
def ctokens (l : List Nat) : List (List Nat) := ctokensAux l []

/-- Source http_parser.c parse_request_line: fewer than three
whitespace-separated tokens is a 400; a method other than GET, HEAD, POST
(case-insensitively) is a 405; a version differing case-insensitively from
the supported version string is a 505; otherwise the parsed request.  The
request allocation of the caller (new_request with content_len -1 and an
empty header list) is folded into the success value. -/
def parse_request_line (hv : List Nat) (line : List Nat) : Except Int http_request_t :=
  match ctokens line with
  | m :: u :: v :: _ =>
    if strcicmp m (str ("GET")) || strcicmp m (str ("HEAD")) || strcicmp m (str ("POST")) then
      if strcicmp v hv then
        .ok { method := m, uri := u, version := v, headers := [], content_len := -1, body := [] }
      else .error HTTP_VERSION_NOT_SUPPORTED
    else .error METHOD_NOT_ALLOWED
  | _ => .error BAD_REQUEST

/-- Source http_parser.c copy_trimmed_string loop body: two pointers walk
in from both ends, each stepping past a space, until both ends are
non-space or the region is empty.  Every iteration shortens the region, so
the loop runs at most length many times; the first argument is that
iteration bound. -/
def trimLoopF : Nat → List Nat → List Nat
  | _, [] => []
  | 0, s => s
  | fuel + 1, c :: rest =>
    if c ≠ 32 ∧ (c :: rest).getLast (by simp) ≠ 32 then c :: rest
    else
      trimLoopF fuel (if (c :: rest).getLast (by simp) = 32
                      then (if c = 32 then rest else c :: rest).dropLast
                      else (if c = 32 then rest else c :: rest))

/-- Source http_parser.c copy_trimmed_string loop, run to completion. -/
def trimLoop (s : List Nat) : List Nat := trimLoopF s.length s

/-- Source http_parser.c copy_trimmed_string: the trimmed copy, or none
when the string is empty after trimming. -/
def copy_trimmed_string (s : List Nat) : Option (List Nat) :=
  let t := trimLoop s
  if t = [] then none else some t

/-- Index of the first colon, as found by strchr. -/
def colonIdx : List Nat → Option Nat
  | [] => none
  | c :: rest => if c = 58 then some 0 else (colonIdx rest).map (· + 1)

/-- Key and value of one header line per the source parse_header: fail when
no colon exists, or the first colon is the first or last character, or
either side trims to empty; otherwise the trimmed pair. -/
def header_of (line : List Nat) : Option http_header_t :=
  match colonIdx line with
  | none => none
  | some i =>
    if i + 1 = line.length ∨ i = 0 then none
    else
      match copy_trimmed_string (line.take i) with
      | none => none
      | some k =>
        match copy_trimmed_string (line.drop (i + 1)) with
        | none => none
        | some v => some { key := k, val := v }

/-- Source http_parser.c parse_header: on success the new entry is pushed
onto the front of the header list of the request. -/
def parse_header (req : http_request_t) (line : List Nat) : Option http_request_t :=
  (header_of line).map (fun h => { req with headers := h :: req.headers })

/-- Modelled from the spec: get_request_header (http_client.c is not among
the sources) looks a key up in the associative header list; keys are
case-sensitive and lookup returns the first match in list order. -/
def get_request_header (req : http_request_t) (key : List Nat) : Option (List Nat) :=
  (req.headers.find? (fun h => h.key == key)).map http_header_t.val

/-- Modelled from the spec: connection_close (http_client.c is not among
the sources) holds when the request carries a Connection header whose
value case-insensitively equals close. -/
def connection_close (req : http_request_t) : Bool :=
  match get_request_header req (str ("Connection")) with
  | some v => strcicmp v (str ("close"))
  | none => false

/-- Source request_handler.c handle_post: CGI is not implemented, so the
response to every POST request is 501 Not Implemented. -/
def handle_post (_ : http_request_t) : Int := NOT_IMPLEMENTED

/-- Modelled from the spec: the line-reading core of client_readline
(http_client.c is not among the sources).  Lines are CRLF- or
LF-terminated; a line is consumed only when its terminating LF is present
in the buffer, and nothing is consumed otherwise, so that the parser can
resume exactly where it left off.  Returns the raw line up to and
excluding the LF together with the rest of the buffer (bounded for use in
termination arguments). -/
def readRaw : (buf : List Nat) → Option (List Nat × { r : List Nat // r.length < buf.length })
  | [] => none
  | c :: rest =>
    if c = 10 then some ([], ⟨rest, by simp⟩)
    else
      match readRaw rest with
      | none => none
      | some (l, r) => some (c :: l, ⟨r.1, Nat.lt_succ_of_lt r.2⟩)

/-- Strip one carriage return preceding the line feed, per the CRLF-or-LF
wire format. -/
def stripCR (l : List Nat) : List Nat :=
  if l.getLast? = some 13 then l.dropLast else l

/-- Modelled from the spec: client_readline as seen by http_parse: the
stripped complete line and the remaining buffer, or none (with an empty
line buffer) when no complete line is available yet. -/
def readln (buf : List Nat) : Option (List Nat × List Nat) :=
  (readRaw buf).map (fun p => (stripCR p.1, p.2.1))

/-- Value of a digit string as computed by atoi. -/
def natFromDigits (l : List Nat) : Nat := l.foldl (fun a c => a * 10 + (c - 48)) 0

/-- Result of the header while-loop of http_parse: either the function
returned from inside the loop (with the http_parse return value, the
request slot it leaves behind, the remaining input, and the emitted
events), or control fell through to the body section with the current
request and input. -/
inductive LoopRes where
  | finished (ret : Int) (reqA : Option http_request_t) (buf : List Nat) (ev : List Event)
  | fell (req : http_request_t) (buf : List Nat)
deriving DecidableEq, Repr

/-- Shared epilogue after a GET or HEAD handler returns r inside the header
loop of http_parse: a non-zero r goes through end_request (modelled from
the spec as sending the error response and closing the connection, hence
returning -1 with the request slot cleared); otherwise the return value is
-1 when the request asked for Connection close and 0 otherwise, and the
request is destroyed. -/
def after_handler (req : http_request_t) (r : Int) (buf : List Nat) : LoopRes :=
  if r ≠ 0 then .finished (-1) none buf [.dispatched req r, .errorResponse r]
  else if connection_close req then .finished (-1) none buf [.dispatched req r]
  else .finished 0 none buf [.dispatched req r]

/-- Source http_parser.c header while-loop: while content_len is -1 and a
complete line is available, consume the line.  An empty line ends the
headers: GET and HEAD dispatch their handler; POST validates the
Content-Length header (absent gives 411 via end_request, a non-digit gives
400 via end_request, and the dead empty-value branch returns 400 directly
leaving the request in place) and then breaks out with content_len set.
Any other line is parsed as a header (failure gives 400 via end_request);
success loops.  Exhausting the available lines falls through with the
request unchanged, as does entering with content_len already set. -/
def header_loop (hget hhead : http_request_t → Int) (req : http_request_t)
    (buf : List Nat) : LoopRes :=
  if req.content_len = -1 then
    match readRaw buf with
    | none => .fell req buf
    | some (raw, rest) =>
      if stripCR raw = [] then
        if strcicmp req.method (str ("GET")) then after_handler req (hget req) rest.1
        else if strcicmp req.method (str ("POST")) then
          match get_request_header req (str ("Content-Length")) with
          | none => .finished (-1) none rest.1 [.errorResponse LENGTH_REQUIRED]
          | some v =>
            if v.length = 0 then .finished BAD_REQUEST (some req) rest.1 []
            else if v.any (fun c => decide (c < 48 ∨ 57 < c)) then
              .finished (-1) none rest.1 [.errorResponse BAD_REQUEST]
            else .fell { req with content_len := (natFromDigits v : Int) } rest.1
        else if strcicmp req.method (str ("HEAD")) then after_handler req (hhead req) rest.1
        else after_handler req 0 rest.1
      else
        match parse_header req (stripCR raw) with
        | none => .finished (-1) none rest.1 [.errorResponse BAD_REQUEST]
        | some req' => header_loop hget hhead req' rest.1
  else .fell req buf
termination_by buf.length
decreasing_by exact rest.2

/-- Source http_parser.c body section of http_parse: when content_len is
positive and at least that many unread bytes are present, the body becomes
a view of the next content_len input bytes, the read cursor advances past
them, and handle_post runs; its non-zero result goes through end_request,
and a zero result would follow the keep-alive epilogue.  Otherwise the
call returns 0 with the request still pending. -/
def body_section (req : http_request_t) (buf : List Nat) : Int × http_client_t × List Event :=
  if 0 < req.content_len then
    if req.content_len ≤ (buf.length : Int) then
      if handle_post { req with body := buf.take req.content_len.toNat } ≠ 0 then
        (-1, ⟨none, buf.drop req.content_len.toNat⟩,
         [.dispatched { req with body := buf.take req.content_len.toNat }
            (handle_post { req with body := buf.take req.content_len.toNat }),
          .errorResponse (handle_post { req with body := buf.take req.content_len.toNat })])
      else if connection_close { req with body := buf.take req.content_len.toNat } then
        (-1, ⟨none, buf.drop req.content_len.toNat⟩,
         [.dispatched { req with body := buf.take req.content_len.toNat }
            (handle_post { req with body := buf.take req.content_len.toNat })])
      else
        (0, ⟨none, buf.drop req.content_len.toNat⟩,
         [.dispatched { req with body := buf.take req.content_len.toNat }
            (handle_post { req with body := buf.take req.content_len.toNat })])
    else (0, ⟨some req, buf⟩, [])
  else (0, ⟨some req, buf⟩, [])

/-- Header loop followed by the body section, as executed by http_parse
once a request object exists. -/
def run_loop (hget hhead : http_request_t → Int) (req : http_request_t)
    (buf : List Nat) : Int × http_client_t × List Event :=
  match header_loop hget hhead req buf with
  | .finished ret reqA buf' ev => (ret, ⟨reqA, buf'⟩, ev)
  | .fell req' buf' => body_section req' buf'

/-- Source http_parser.c http_parse: with no request in flight, read one
line; no complete line (an empty line buffer) returns 0 at once, a
consumed blank line also returns 0, and otherwise the request line is
parsed, a failure going through end_request.  With a request in flight, or
after a parsed request line, the header loop and body section run.  The
GET and HEAD handlers perform file system work outside this core and enter
as parameters; the result triple is the http_parse return value, the new
connection state, and the dispatch events of the call. -/
def http_parse (hget hhead : http_request_t → Int) (hv : List Nat)
    (c : http_client_t) : Int × http_client_t × List Event :=
  match c.req with
  | some req => run_loop hget hhead req c.inbuf
  | none =>
    match readRaw c.inbuf with
    | none => (0, c, [])
    | some (raw, rest) =>
      if stripCR raw = [] then (0, ⟨none, rest.1⟩, [])
      else
        match parse_request_line hv (stripCR raw) with
        | .error code => (-1, ⟨none, rest.1⟩, [.errorResponse code])
        | .ok req0 => run_loop hget hhead req0 rest.1

/-- Driver feeding one received fragment to the connection and running
http_parse once, as the event loop does per readiness event. -/
def feedFrag (hget hhead : http_request_t → Int) (hv : List Nat)
    (c : http_client_t) (f : List Nat) : Int × http_client_t × List Event :=
  http_parse hget hhead hv ⟨c.req, c.inbuf ++ f⟩

/-- Driver feeding a list of fragments one http_parse call at a time,
collecting all events, the final connection state, and the return value of
the last call. -/
def runFrags (hget hhead : http_request_t → Int) (hv : List Nat)
    (c : http_client_t) : List (List Nat) → http_client_t × List Event × Int
  | [] => (c, [], 0)
  | f :: fs =>
    let r := feedFrag hget hhead hv c f
    match fs with
    | [] => (r.2.1, r.2.2, r.1)
    | _ :: _ =>
      let rest := runFrags hget hhead hv r.2.1 fs
      (rest.1, r.2.2 ++ rest.2.1, rest.2.2)

/-- Fold of parse_header over a list of header lines. -/
def foldHeaders (req : http_request_t) : List (List Nat) → Option http_request_t
  | [] => some req
  | l :: ls =>
    match parse_header req l with
    | none => none
    | some req' => foldHeaders req' ls

/-- Spec wire format: a line terminator is LF or CRLF. -/
def eolOK (t : List Nat) : Prop := t = [10] ∨ t = [13, 10]

/-- A line of the wire format: no line feed inside, and not ending in a
carriage return (so that the terminator strip restores it exactly). -/
def lineOK (l : List Nat) : Prop := 10 ∉ l ∧ l.getLast? ≠ some 13

/-- Concatenation of header lines with their terminators. -/
def hjoin (hts : List (List Nat × List Nat)) : List Nat :=
  (hts.map (fun p => p.1 ++ p.2)).flatten

/-- Well-formed single HTTP request over the wire: a request line that
parses, terminated header lines that all parse, a blank line, and a body
that is empty for GET and HEAD and matches the Content-Length header for
POST. -/
def WFReq (hv B : List Nat) : Prop :=
  ∃ rl rleol hts bleol body req0 reqH,
    B = rl ++ rleol ++ hjoin hts ++ bleol ++ body ∧
    lineOK rl ∧ eolOK rleol ∧ eolOK bleol ∧
    (∀ p ∈ hts, lineOK p.1 ∧ eolOK p.2) ∧
    parse_request_line hv rl = .ok req0 ∧
    foldHeaders req0 (hts.map Prod.fst) = some reqH ∧
    (strcicmp req0.method (str ("POST")) = true →
      ∃ v, get_request_header reqH (str ("Content-Length")) = some v ∧ v ≠ [] ∧
        (∀ c ∈ v, 48 ≤ c ∧ c ≤ 57) ∧ body.length = natFromDigits v) ∧
    (strcicmp req0.method (str ("POST")) = false → body = [])

/-- Strip of leading ASCII spaces (byte 32). -/
def trimL (s : List Nat) : List Nat := s.dropWhile (fun c => c = 32)

/-- Strip of trailing ASCII spaces (byte 32). -/
def trimR (s : List Nat) : List Nat := (s.reverse.dropWhile (fun c => c = 32)).reverse

/-- Trim of the spec wording: strip leading and trailing ASCII spaces and
nothing else (in particular not tabs). -/
def spec_trim (s : List Nat) : List Nat := trimR (trimL s)

/-- Well-formed buffer state: the capacity invariant of the spec together
with the backing store having exactly the capacity many bytes. -/
def bufInv (bp : buf_t) : Prop :=
  bp.pos ≤ bp.datasize ∧ bp.datasize ≤ bp.bufsize ∧ bp.buf.length = bp.bufsize

/-! Theorems.  First the io.c lemmas and claims, then the parser. -/

theorem io_shrink_pos (bp : buf_t) : (io_shrink bp).pos = 0 := rfl

theorem io_shrink_datasize (bp : buf_t) :
    (io_shrink bp).datasize = bp.datasize - bp.pos := rfl

theorem io_shrink_bufsize (bp : buf_t) :
    (io_shrink bp).bufsize = bp.bufsize - (bp.bufsize - bp.datasize + bp.pos) / 2 := rfl

theorem bufInv_io_shrink {bp : buf_t} (h : bufInv bp) : bufInv (io_shrink bp) := by
  obtain ⟨h1, h2, h3⟩ := h
  refine ⟨by simp [io_shrink], by simp [io_shrink]; omega, ?_⟩
  simp [io_shrink, List.length_take, List.length_drop, h3]
  omega

theorem io_shrink_content {bp : buf_t} (_h1 : bp.pos ≤ bp.datasize)
    (h3 : bp.datasize ≤ bp.buf.length) :
    (io_shrink bp).buf.take ((io_shrink bp).datasize) =
      (bp.buf.drop bp.pos).take (bp.datasize - bp.pos) := by
  have hlen : ((bp.buf.drop bp.pos).take (bp.datasize - bp.pos)).length
      = bp.datasize - bp.pos := by
    simp [List.length_take, List.length_drop]
    omega
  show ((bp.buf.drop bp.pos).take (bp.datasize - bp.pos) ++ _).take (bp.datasize - bp.pos) = _
  rw [List.take_append_of_le_length (le_of_eq hlen.symm), List.take_take]
  simp

theorem bufInv_recv_step {B : Nat} {bp : buf_t} {data : List Nat} (h : bufInv bp)
    (hd : data.length ≤ bp.bufsize - bp.datasize - 1) :
    bufInv (recv_step B bp data) := by
  obtain ⟨h1, h2, h3⟩ := h
  unfold recv_step grow_check recv_fill
  split
  · refine ⟨by simp; omega, by simp; omega, ?_⟩
    simp [List.length_append, List.length_take, List.length_drop, h3]
    omega
  · refine ⟨by simp; omega, by simp; omega, ?_⟩
    simp [List.length_append, List.length_take, List.length_drop, h3]
    omega

theorem recv_step_datasize (B : Nat) (bp : buf_t) (data : List Nat) :
    (recv_step B bp data).datasize = bp.datasize + data.length := by
  unfold recv_step grow_check recv_fill
  split <;> simp

theorem recv_step_bufsize (B : Nat) (bp : buf_t) (data : List Nat) :
    (recv_step B bp data).bufsize =
      if bp.datasize + data.length + B / 2 > bp.bufsize
      then bp.bufsize + bp.bufsize / 2 else bp.bufsize := by
  unfold recv_step grow_check recv_fill full
  simp only [decide_eq_true_eq]
  split <;> rfl

theorem bufInv_io_recv {B : Nat} {bp : buf_t} {again : Bool}
    {chunks : List (List Nat)} (h : bufInv bp) :
    bufInv (io_recv B bp again chunks).2 := by
  induction chunks generalizing bp with
  | nil => unfold io_recv; split <;> exact h
  | cons c cs ih =>
    unfold io_recv
    split
    · exact h
    · exact ih (bufInv_recv_step h (by simp))

theorem bufInv_io_send_loop {B : Nat} {es : List SendEv} {bp : buf_t} {sent : Nat}
    (h : bufInv bp) : bufInv (io_send_loop B bp sent es).2 := by
  induction es generalizing bp sent with
  | nil =>
    unfold io_send_loop finishSend
    split
    · exact bufInv_io_shrink h
    · exact h
  | cons e es ih =>
    unfold io_send_loop
    split
    · match e with
      | .ok n =>
        exact ih ⟨by simp; omega, h.2.1, h.2.2⟩
      | .wouldblock =>
        show bufInv (finishSend B bp sent).2
        unfold finishSend
        split
        · exact bufInv_io_shrink h
        · exact h
      | .err => exact h
    · show bufInv (finishSend B bp sent).2
      unfold finishSend
      split
      · exact bufInv_io_shrink h
      · exact h

/-- Claim C2: each of io_recv, io_send and io_shrink preserves the
GrowBuffer capacity invariant 0 <= pos <= datasize <= bufsize (on buffer
states whose backing store matches the capacity), and io_shrink moves the
unread bytes of the region from pos to datasize byte-for-byte to offset 0,
resetting pos to 0. -/
theorem growbuffer_invariant_preserved (B : Nat) (bp : buf_t) (again : Bool)
    (chunks : List (List Nat)) (es : List SendEv) (h : bufInv bp) :
    bufInv (io_recv B bp again chunks).2 ∧
    bufInv (io_send B bp es).2 ∧
    bufInv (io_shrink bp) ∧
    (io_shrink bp).pos = 0 ∧
    (io_shrink bp).datasize = bp.datasize - bp.pos ∧
    (io_shrink bp).buf.take ((io_shrink bp).datasize) =
      (bp.buf.drop bp.pos).take (bp.datasize - bp.pos) :=
  ⟨bufInv_io_recv h, bufInv_io_send_loop h, bufInv_io_shrink h, rfl, rfl,
   io_shrink_content h.1 (le_of_le_of_eq h.2.1 h.2.2.symm)⟩

/-- Witness for C2 at a concrete buffer state. -/
theorem growbuffer_invariant_preserved_witness :
    bufInv ⟨[7, 8, 9, 0], 4, 3, 1⟩ ∧
    (bufInv (io_recv 4 ⟨[7, 8, 9, 0], 4, 3, 1⟩ true [[5]]).2 ∧
     bufInv (io_send 4 ⟨[7, 8, 9, 0], 4, 3, 1⟩ [.ok 2]).2 ∧
     bufInv (io_shrink ⟨[7, 8, 9, 0], 4, 3, 1⟩) ∧
     (io_shrink ⟨[7, 8, 9, 0], 4, 3, 1⟩).pos = 0 ∧
     (io_shrink ⟨[7, 8, 9, 0], 4, 3, 1⟩).datasize = 3 - 1 ∧
     (io_shrink ⟨[7, 8, 9, 0], 4, 3, 1⟩).buf.take
         ((io_shrink ⟨[7, 8, 9, 0], 4, 3, 1⟩).datasize) =
       (([7, 8, 9, 0] : List Nat).drop 1).take (3 - 1)) :=
  ⟨⟨by decide, by decide, by decide⟩,
   growbuffer_invariant_preserved 4 ⟨[7, 8, 9, 0], 4, 3, 1⟩ true [[5]] [.ok 2]
     ⟨by decide, by decide, by decide⟩⟩

/-- Claim C3, corrected: during io_recv, after a successful read the buffer
grows exactly when datasize + BUFSIZE / 2 exceeds the capacity, where
BUFSIZE is the compile-time base buffer constant, not the current capacity
as the claim states; and the new capacity is capacity + capacity / 2, which
is 1.5 times the capacity rounded down, not up. -/
theorem recv_grow_rule_amended (B : Nat) (bp : buf_t) (data : List Nat) :
    (recv_step B bp data).datasize = bp.datasize + data.length ∧
    (recv_step B bp data).bufsize =
      (if bp.datasize + data.length + B / 2 > bp.bufsize
       then bp.bufsize + bp.bufsize / 2 else bp.bufsize) :=
  ⟨recv_step_datasize B bp data, recv_step_bufsize B bp data⟩

/-- Counterexample to claim C3 as stated, with BUFSIZE 8.  After the first
recv of 7 bytes the fresh buffer grows from 8 to 12; the second successful
read of one byte leaves datasize 8 and capacity 12, where the remaining
capacity 12 - 8 = 4 is below half the capacity (6), so the claim demands a
growth to 18, yet the capacity stays 12.  Moreover a reachable growth step
at capacity 27 yields 27 + 27 / 2 = 40, not the claimed
ceiling of 27 * 1.5, which is 41. -/
theorem recv_grow_rule_cex :
    (io_recv 8 (init_buf 8) true [List.replicate 7 1, [1]]).2.datasize = 8 ∧
    (io_recv 8 (init_buf 8) true [List.replicate 7 1, [1]]).2.bufsize = 12 ∧
    (io_recv 8 (init_buf 8) true [List.replicate 7 1]).2.bufsize = 12 ∧
    12 - 8 < 12 / 2 ∧
    ¬ (io_recv 8 (init_buf 8) true [List.replicate 7 1, [1]]).2.bufsize = 18 ∧
    (io_recv 8 (init_buf 8) true
      [List.replicate 7 1, List.replicate 4 1, List.replicate 6 1]).2.bufsize = 27 ∧
    (io_recv 8 (init_buf 8) true
      [List.replicate 7 1, List.replicate 4 1, List.replicate 6 1,
       List.replicate 9 1]).2.bufsize = 40 ∧
    ¬ (40 : Nat) = (3 * 27 + 1) / 2 := by decide

/-- Claim C10: every receive request inside io_recv asks for at most
bufsize - datasize - 1 bytes (visible in the capacity argument of the
io_recv definition), so io_recv keeps datasize at most bufsize - 1. -/
theorem io_recv_leaves_tail_byte (B : Nat) (bp : buf_t) (again : Bool)
    (chunks : List (List Nat)) (h : bp.datasize < bp.bufsize) :
    (io_recv B bp again chunks).2.datasize + 1 ≤ (io_recv B bp again chunks).2.bufsize := by
  induction chunks generalizing bp with
  | nil =>
    unfold io_recv
    split
    all_goals simp
    all_goals omega
  | cons c cs ih =>
    unfold io_recv
    split
    · simp
      omega
    · apply ih
      have hlen : (c.take (bp.bufsize - bp.datasize - 1)).length
          ≤ bp.bufsize - bp.datasize - 1 := by simp
      rw [recv_step_datasize, recv_step_bufsize]
      split <;> omega

/-- Witness for C10 at a concrete buffer state. -/
theorem io_recv_leaves_tail_byte_witness :
    (0 : Nat) < 8 ∧
    (io_recv 8 (init_buf 8) true [[1, 1]]).2.datasize + 1 ≤
      (io_recv 8 (init_buf 8) true [[1, 1]]).2.bufsize :=
  ⟨by decide, io_recv_leaves_tail_byte 8 (init_buf 8) true [[1, 1]] (by decide)⟩

/-- Claim C8: case analysis of one io_pipe step.  With the scratch buffer
exhausted, a read error closes the source and returns -1; a zero-length
read closes the source and returns 1; otherwise the scratch is refilled
and the send part runs.  The send part closes the source and returns -1 on
a send error, and otherwise advances offset by the bytes written (possibly
zero) and returns 0 without closing.  Consequently the source descriptor
is closed on every exit whose result is nonzero. -/
theorem io_pipe_step_semantics (B : Nat) (pp : pipe_t) (rd : ReadEv) (se : PipeSendEv) :
    (pp.datasize ≤ pp.offset → rd = .rerr → io_pipe B pp rd se = (-1, pp, true)) ∧
    (pp.datasize ≤ pp.offset → ∀ data, rd = .rok data → data.take B = [] →
       io_pipe B pp rd se = (1, { pp with datasize := 0 }, true)) ∧
    (pp.datasize ≤ pp.offset → ∀ data, rd = .rok data → data.take B ≠ [] → se = .serr →
       io_pipe B pp rd se =
         (-1, { pp with buf := data.take B ++ pp.buf.drop (data.take B).length,
                        datasize := (data.take B).length, offset := 0 }, true)) ∧
    (pp.datasize ≤ pp.offset → ∀ data n, rd = .rok data → data.take B ≠ [] → se = .sok n →
       io_pipe B pp rd se =
         (0, { pp with buf := data.take B ++ pp.buf.drop (data.take B).length,
                       datasize := (data.take B).length,
                       offset := min n (data.take B).length }, false)) ∧
    (¬ pp.datasize ≤ pp.offset → se = .serr → io_pipe B pp rd se = (-1, pp, true)) ∧
    (¬ pp.datasize ≤ pp.offset → ∀ n, se = .sok n →
       io_pipe B pp rd se =
         (0, { pp with offset := pp.offset + min n (pp.datasize - pp.offset) }, false)) ∧
    ((io_pipe B pp rd se).1 ≠ 0 → (io_pipe B pp rd se).2.2 = true) := by
  have hlen0 : ∀ data : List Nat, data.take B ≠ [] → ¬ (data.take B).length = 0 := by
    intro data hnil hcon
    exact hnil (List.eq_nil_of_length_eq_zero hcon)
  refine ⟨?_, ?_, ?_, ?_, ?_, ?_, ?_⟩
  · intro hx hrd
    subst hrd
    simp [io_pipe, hx]
  · intro hx data hrd hnil
    subst hrd
    simp [io_pipe, hx, hnil]
  · intro hx data hrd hnil hse
    subst hrd; subst hse
    rw [io_pipe, if_pos hx]
    simp only [if_neg (hlen0 data hnil)]
    rfl
  · intro hx data n hrd hnil hse
    subst hrd; subst hse
    rw [io_pipe, if_pos hx]
    simp only [if_neg (hlen0 data hnil)]
    simp [pipe_send]
  · intro hx hse
    subst hse
    simp [io_pipe, hx, pipe_send]
  · intro hx n hse
    subst hse
    simp [io_pipe, hx, pipe_send]
  · unfold io_pipe
    split
    · match rd with
      | .rerr => intro _; rfl
      | .rok data =>
        dsimp only
        split
        · intro _; rfl
        · match se with
          | .serr => intro _; rfl
          | .sok n => intro h; simp [pipe_send] at h
    · match se with
      | .serr => intro _; rfl
      | .sok n => intro h; simp [pipe_send] at h

/-- Witness for C8 at concrete pipe states, one instance per guarded
case. -/
theorem io_pipe_step_semantics_witness :
    ((0 : Nat) ≤ 0 ∧ io_pipe 4 ⟨[], 0, 0⟩ .rerr (.sok 1) = (-1, ⟨[], 0, 0⟩, true)) ∧
    io_pipe 4 ⟨[], 0, 0⟩ (.rok []) (.sok 1) = (1, ⟨[], 0, 0⟩, true) ∧
    io_pipe 4 ⟨[], 0, 0⟩ (.rok [9, 9]) .serr = (-1, ⟨[9, 9], 2, 0⟩, true) ∧
    io_pipe 4 ⟨[], 0, 0⟩ (.rok [9, 9]) (.sok 1) = (0, ⟨[9, 9], 2, 1⟩, false) ∧
    (¬ (2 : Nat) ≤ 1 ∧ io_pipe 4 ⟨[9, 9], 2, 1⟩ .rerr .serr = (-1, ⟨[9, 9], 2, 1⟩, true)) ∧
    io_pipe 4 ⟨[9, 9], 2, 1⟩ .rerr (.sok 5) = (0, ⟨[9, 9], 2, 2⟩, false) ∧
    ((io_pipe 4 ⟨[], 0, 0⟩ .rerr (.sok 1)).1 ≠ 0 →
      (io_pipe 4 ⟨[], 0, 0⟩ .rerr (.sok 1)).2.2 = true) :=
  ⟨⟨by decide, (io_pipe_step_semantics 4 ⟨[], 0, 0⟩ .rerr (.sok 1)).1 (by decide) rfl⟩,
   (io_pipe_step_semantics 4 ⟨[], 0, 0⟩ (.rok []) (.sok 1)).2.1 (by decide) [] rfl (by decide),
   by
     have := (io_pipe_step_semantics 4 ⟨[], 0, 0⟩ (.rok [9, 9]) .serr).2.2.1
       (by decide) [9, 9] rfl (by decide) rfl
     simpa using this,
   by
     have := (io_pipe_step_semantics 4 ⟨[], 0, 0⟩ (.rok [9, 9]) (.sok 1)).2.2.2.1
       (by decide) [9, 9] 1 rfl (by decide) rfl
     simpa using this,
   ⟨by decide, (io_pipe_step_semantics 4 ⟨[9, 9], 2, 1⟩ .rerr .serr).2.2.2.2.1
      (by decide) rfl⟩,
   by
     have := (io_pipe_step_semantics 4 ⟨[9, 9], 2, 1⟩ .rerr (.sok 5)).2.2.2.2.2.1
       (by decide) 5 rfl
     simpa using this,
   (io_pipe_step_semantics 4 ⟨[], 0, 0⟩ .rerr (.sok 1)).2.2.2.2.2.2⟩

theorem pipe_drive_spec (B : Nat) (hB : 1 ≤ B) :
    ∀ fuel (src : List Nat) (pp : pipe_t), pp.datasize ≤ pp.offset →
      src.length < fuel →
      pipe_drive B pp src fuel =
        ((src.length + B - 1) / B,
         List.replicate ((src.length + B - 1) / B) (0, false) ++ [(1, true)]) := by
  intro fuel
  induction fuel with
  | zero => intro src pp _ hlt; omega
  | succ fuel ih =>
    intro src pp hpp hlt
    cases src with
    | nil =>
      unfold pipe_drive
      simp [io_pipe, hpp]
      rw [Nat.div_eq_of_lt (by omega)]
      simp
    | cons s ss =>
      have hne : (s :: ss).take B ≠ [] := by
        have : ((s :: ss).take B).length = min B (ss.length + 1) := by simp
        intro hcon
        rw [hcon] at this
        simp at this
        omega
      have hklen : ((s :: ss).take B).length = min B (ss.length + 1) := by simp
      have hstep : io_pipe B pp (.rok ((s :: ss).take B)) (.sok B) =
          (0, { pp with buf := (s :: ss).take B ++ pp.buf.drop ((s :: ss).take B).length,
                        datasize := ((s :: ss).take B).length,
                        offset := ((s :: ss).take B).length }, false) := by
        have htt : ((s :: ss).take B).take B = (s :: ss).take B := by
          rw [List.take_take]
          simp
        have := (io_pipe_step_semantics B pp (.rok ((s :: ss).take B)) (.sok B)).2.2.2.1
          hpp ((s :: ss).take B) B rfl (by rw [htt]; exact hne) rfl
        rw [htt] at this
        rw [this]
        have : min B ((s :: ss).take B).length = ((s :: ss).take B).length := by
          rw [hklen]
          omega
        rw [this]
      have hfuel : ((s :: ss).drop B).length < fuel := by
        simp only [List.length_drop, List.length_cons]
        simp only [List.length_cons] at hlt
        omega
      have hrec := ih ((s :: ss).drop B)
        { pp with buf := (s :: ss).take B ++ pp.buf.drop ((s :: ss).take B).length,
                  datasize := ((s :: ss).take B).length,
                  offset := ((s :: ss).take B).length }
        (by simp) hfuel
      have hcond : pp.datasize ≤ pp.offset ∧ (s :: ss).take B ≠ [] := ⟨hpp, hne⟩
      unfold pipe_drive
      rw [hstep]
      dsimp only
      rw [if_pos hcond, if_pos hpp, if_pos rfl, hrec]
      have hlen2 : (List.drop B (s :: ss)).length = ss.length + 1 - B := by simp
      have harith : (ss.length + 1 - B + B - 1) / B + 1 = (ss.length + 1 + B - 1) / B := by
        rcases Nat.lt_or_ge (ss.length + 1) B with hc | hc
        · rw [Nat.div_eq_of_lt (by omega)]
          have h2 : ss.length + 1 + B - 1 = ss.length + B := by omega
          rw [h2, Nat.add_div_right _ (by omega), Nat.div_eq_of_lt (by omega)]
        · have h1 : ss.length + 1 - B + B - 1 = ss.length := by omega
          have h2 : ss.length + 1 + B - 1 = ss.length + B := by omega
          rw [h1, h2, Nat.add_div_right _ (by omega)]
      rw [hlen2]
      simp only [Prod.mk.injEq, List.length_cons]
      refine ⟨by omega, ?_⟩
      rw [← harith, List.replicate_succ]
      simp

/-- Claim C9: streaming a source of N bytes through io_pipe with reads
delivering up to the scratch capacity and sends succeeding in full issues
exactly the ceiling of N / B refill reads, reports Done exactly once, at
the end of the trace, and closes the source exactly at the step reporting
Done. -/
theorem pipe_refill_count (B : Nat) (src : List Nat) (hB : 1 ≤ B) :
    pipe_drive B init_pipe src (src.length + 1) =
      ((src.length + B - 1) / B,
       List.replicate ((src.length + B - 1) / B) (0, false) ++ [(1, true)]) :=
  pipe_drive_spec B hB (src.length + 1) src init_pipe (by simp [init_pipe]) (by omega)

/-- Witness for C9: a 7 byte file over a 3 byte scratch buffer issues
three refill reads then reports Done with the source closed. -/
theorem pipe_refill_count_witness :
    (1 : Nat) ≤ 3 ∧
    pipe_drive 3 init_pipe (List.replicate 7 5) ((List.replicate 7 (5 : Nat)).length + 1) =
      (((List.replicate 7 (5 : Nat)).length + 3 - 1) / 3,
       List.replicate (((List.replicate 7 (5 : Nat)).length + 3 - 1) / 3) (0, false) ++
         [(1, true)]) :=
  ⟨by decide, pipe_refill_count 3 (List.replicate 7 5) (by decide)⟩

theorem getLast_single (c : Nat) (h : ([c] : List Nat) ≠ []) : ([c] : List Nat).getLast h = c := rfl

theorem getLast_cons_concat (c d : Nat) (mid : List Nat) (h : c :: (mid ++ [d]) ≠ []) :
    (c :: (mid ++ [d])).getLast h = d := by
  induction mid generalizing c with
  | nil => rfl
  | cons m ms ih => exact ih m (by simp)

theorem trimR_concat_space (Y : List Nat) : trimR (Y ++ [32]) = trimR Y := by
  simp [trimR, List.reverse_append]

theorem trimR_concat_keep {d : Nat} (Y : List Nat) (hd : d ≠ 32) :
    trimR (Y ++ [d]) = Y ++ [d] := by
  simp [trimR, List.reverse_append, List.dropWhile_cons, hd]

theorem trimL_cons_space (s : List Nat) : trimL (32 :: s) = trimL s := by
  simp [trimL]

theorem trimL_cons_keep {c : Nat} (s : List Nat) (hc : c ≠ 32) :
    trimL (c :: s) = c :: s := by
  simp [trimL, List.dropWhile_cons, hc]

theorem trimRL_concat_space (X : List Nat) : trimR (trimL (X ++ [32])) = trimR (trimL X) := by
  induction X with
  | nil => simp [trimL, trimR]
  | cons x xs ih =>
    by_cases hx : x = 32
    · subst hx
      rw [List.cons_append, trimL_cons_space, trimL_cons_space, ih]
    · rw [List.cons_append, trimL_cons_keep _ hx, trimL_cons_keep _ hx,
        ← List.cons_append, trimR_concat_space]

theorem trimLoopF_eq_spec : ∀ n (s : List Nat), s.length ≤ n → trimLoopF n s = spec_trim s := by
  intro n
  induction n with
  | zero =>
    intro s hs
    have : s = [] := List.eq_nil_of_length_eq_zero (by omega)
    subst this
    rfl
  | succ n ih =>
    intro s hs
    match s with
    | [] => rfl
    | c :: rest =>
      rcases rest.eq_nil_or_concat with hrest | ⟨mid, d, hrest⟩
      · subst hrest
        show (if c ≠ 32 ∧ ([c] : List Nat).getLast (by simp) ≠ 32 then [c]
              else trimLoopF n (if ([c] : List Nat).getLast (by simp) = 32
                                then (if c = 32 then ([] : List Nat) else [c]).dropLast
                                else (if c = 32 then ([] : List Nat) else [c]))) = spec_trim [c]
        by_cases hc : c = 32
        · subst hc
          rw [if_neg (by simp)]
          simp only [getLast_single]
          have h0 : trimLoopF n ([] : List Nat) = [] := by
            match n with
            | 0 => rfl
            | _ + 1 => rfl
          simp [h0, spec_trim, trimL, trimR]
        · rw [if_pos ⟨hc, by simpa [getLast_single] using hc⟩]
          rw [spec_trim, trimL_cons_keep _ hc,
            show ([c] : List Nat) = [] ++ [c] from rfl, trimR_concat_keep _ hc]
      · rw [List.concat_eq_append] at hrest
        subst hrest
        show (if c ≠ 32 ∧ (c :: (mid ++ [d])).getLast (by simp) ≠ 32 then c :: (mid ++ [d])
              else trimLoopF n
                (if (c :: (mid ++ [d])).getLast (by simp) = 32
                 then (if c = 32 then mid ++ [d] else c :: (mid ++ [d])).dropLast
                 else (if c = 32 then mid ++ [d] else c :: (mid ++ [d])))) =
            spec_trim (c :: (mid ++ [d]))
        rw [getLast_cons_concat]
        by_cases hc : c = 32 <;> by_cases hd : d = 32
        · subst hc; subst hd
          rw [if_neg (by simp)]
          rw [if_pos rfl, if_pos rfl]
          rw [List.dropLast_concat]
          rw [ih mid (by simp at hs; omega)]
          rw [spec_trim, spec_trim, trimL_cons_space, trimRL_concat_space]
        · subst hc
          rw [if_neg (by simp)]
          rw [if_neg hd, if_pos rfl]
          rw [ih (mid ++ [d]) (by simp at hs ⊢; omega)]
          rw [spec_trim, spec_trim, trimL_cons_space]
        · subst hd
          rw [if_neg (by simp [hc])]
          rw [if_pos rfl, if_neg hc]
          rw [show (c :: (mid ++ [32])).dropLast = c :: mid by
            rw [show c :: (mid ++ [32]) = (c :: mid) ++ [32] from rfl, List.dropLast_concat]]
          rw [ih (c :: mid) (by simp at hs ⊢; omega)]
          rw [spec_trim, spec_trim, trimL_cons_keep _ hc, trimL_cons_keep _ hc,
            show c :: (mid ++ [32]) = (c :: mid) ++ [32] from rfl, trimR_concat_space]
        · rw [if_pos ⟨hc, hd⟩]
          rw [spec_trim, trimL_cons_keep _ hc,
            show c :: (mid ++ [d]) = (c :: mid) ++ [d] from rfl, trimR_concat_keep _ hd]

theorem trimLoop_eq_spec (s : List Nat) : trimLoop s = spec_trim s :=
  trimLoopF_eq_spec s.length s (le_refl _)

theorem cts_eq (s : List Nat) :
    copy_trimmed_string s = if spec_trim s = [] then none else some (spec_trim s) := by
  rw [copy_trimmed_string, trimLoop_eq_spec]

theorem find?_filter_getLast (p : http_header_t → Bool) (l : List http_header_t) :
    l.reverse.find? p = (l.filter p).getLast? := by
  induction l with
  | nil => rfl
  | cons x xs ih =>
    rw [List.reverse_cons, List.find?_append, ih, List.filter_cons]
    by_cases hx : p x
    · simp only [hx, if_true]
      have hfx : List.find? p [x] = some x := by simp [List.find?, hx]
      rw [hfx]
      cases hfl : (xs.filter p).getLast? with
      | none =>
        have hnil : xs.filter p = [] := List.getLast?_eq_none_iff.mp hfl
        rw [hnil]
        rfl
      | some y =>
        have hne : xs.filter p ≠ [] := by
          intro hcon
          rw [hcon] at hfl
          simp at hfl
        match hz : xs.filter p with
        | [] => exact absurd hz hne
        | z :: zs =>
          rw [hz] at hfl
          rw [List.getLast?_cons_cons, hfl]
          rfl
    · have hfx : List.find? p [x] = none := by simp [List.find?, hx]
      simp [hx, hfx, Option.or_none]

theorem header_of_eq (line : List Nat) :
    header_of line =
      (match colonIdx line with
       | none => none
       | some i =>
         if i + 1 = line.length ∨ i = 0 then none
         else if spec_trim (line.take i) = [] then none
         else if spec_trim (line.drop (i + 1)) = [] then none
         else some ⟨spec_trim (line.take i), spec_trim (line.drop (i + 1))⟩) := by
  rw [header_of]
  cases colonIdx line with
  | none => rfl
  | some i =>
    dsimp only
    by_cases hend : i + 1 = line.length ∨ i = 0
    · simp [hend]
    · rw [if_neg hend, if_neg hend]
      rw [cts_eq, cts_eq]
      by_cases h1 : spec_trim (line.take i) = [] <;>
        by_cases h2 : spec_trim (line.drop (i + 1)) = [] <;> simp [h1, h2]

/-- Claim C6: a header line is rejected exactly when it has no colon, or
the first colon is the first or last character, or the key or value is
empty after trimming; on success the trimmed pair is prepended to the
header list; and the trim of the source two-pointer loop strips exactly
the leading and trailing ASCII spaces of the spec wording "spec_trim"
(in particular tabs are kept). -/
theorem header_line_validity (req : http_request_t) (line : List Nat) :
    (parse_header req line = none ↔
      colonIdx line = none ∨
      ∃ i, colonIdx line = some i ∧
        (i = 0 ∨ i + 1 = line.length ∨
         spec_trim (line.take i) = [] ∨ spec_trim (line.drop (i + 1)) = [])) ∧
    (∀ i, colonIdx line = some i → i ≠ 0 → i + 1 ≠ line.length →
      spec_trim (line.take i) ≠ [] → spec_trim (line.drop (i + 1)) ≠ [] →
      parse_header req line = some { req with headers :=
        ⟨spec_trim (line.take i), spec_trim (line.drop (i + 1))⟩ :: req.headers }) ∧
    (∀ s, trimLoop s = spec_trim s) := by
  refine ⟨?_, ?_, fun s => trimLoop_eq_spec s⟩
  · rw [parse_header, header_of_eq]
    cases colonIdx line with
    | none => simp
    | some i =>
      dsimp only
      by_cases hend : i + 1 = line.length ∨ i = 0
      · rw [if_pos hend]
        simp only [Option.map_none']
        constructor
        · intro _
          exact Or.inr ⟨i, rfl, by tauto⟩
        · intro _
          trivial
      · rw [if_neg hend]
        by_cases h1 : spec_trim (line.take i) = []
        · rw [if_pos h1]
          simp only [Option.map_none']
          constructor
          · intro _
            exact Or.inr ⟨i, rfl, by tauto⟩
          · intro _
            trivial
        · rw [if_neg h1]
          by_cases h2 : spec_trim (line.drop (i + 1)) = []
          · rw [if_pos h2]
            simp only [Option.map_none']
            constructor
            · intro _
              exact Or.inr ⟨i, rfl, by tauto⟩
            · intro _
              trivial
          · rw [if_neg h2]
            simp only [Option.map_some']
            constructor
            · intro hcon
              exact absurd hcon (by simp)
            · rintro (hcon | ⟨j, hj, hdis⟩)
              · exact absurd hcon (by simp)
              · have : i = j := by injection hj
                subst this
                tauto
  · intro i hci h0 hlen h1 h2
    rw [parse_header, header_of_eq, hci]
    dsimp only
    rw [if_neg (by tauto), if_neg h1, if_neg h2]
    rfl

/-- Witness for C6 on concrete header lines. -/
theorem header_line_validity_witness :
    (colonIdx (str ("Content-Length: 10")) = some 14 ∧
     parse_header ⟨[], [], [], [], -1, []⟩ (str ("Content-Length: 10")) =
       some ⟨[], [], [],
         [⟨spec_trim ((str ("Content-Length: 10")).take 14),
           spec_trim ((str ("Content-Length: 10")).drop 15)⟩], -1, []⟩) ∧
    (parse_header ⟨[], [], [], [], -1, []⟩ (str (": 10")) = none ↔
      colonIdx (str (": 10")) = none ∨
      ∃ i, colonIdx (str (": 10")) = some i ∧
        (i = 0 ∨ i + 1 = (str (": 10")).length ∨
         spec_trim ((str (": 10")).take i) = [] ∨
         spec_trim ((str (": 10")).drop (i + 1)) = [])) :=
  ⟨⟨by decide,
    by
      have := (header_line_validity ⟨[], [], [], [], -1, []⟩ (str ("Content-Length: 10"))).2.1 14
        (by decide) (by decide) (by decide) (by decide) (by decide)
      simpa using this⟩,
   (header_line_validity ⟨[], [], [], [], -1, []⟩ (str (": 10"))).1⟩

/-- Claim C4: request line parsing produces 400 for fewer than three
whitespace tokens, otherwise 405 for a method not case-insensitively GET,
HEAD or POST, otherwise 505 for a version not case-insensitively equal to
the supported version string, and otherwise succeeds with method, uri and
version from the three tokens. -/
theorem request_line_outcomes (hv line : List Nat) :
    ((ctokens line).length < 3 → parse_request_line hv line = .error BAD_REQUEST) ∧
    (∀ m u v rest, ctokens line = m :: u :: v :: rest →
      (((strcicmp m (str ("GET")) || strcicmp m (str ("HEAD"))) || strcicmp m (str ("POST")))
          = false →
        parse_request_line hv line = .error METHOD_NOT_ALLOWED) ∧
      (((strcicmp m (str ("GET")) || strcicmp m (str ("HEAD"))) || strcicmp m (str ("POST")))
          = true → strcicmp v hv = false →
        parse_request_line hv line = .error HTTP_VERSION_NOT_SUPPORTED) ∧
      (((strcicmp m (str ("GET")) || strcicmp m (str ("HEAD"))) || strcicmp m (str ("POST")))
          = true → strcicmp v hv = true →
        parse_request_line hv line =
          .ok { method := m, uri := u, version := v, headers := [],
                content_len := -1, body := [] })) := by
  constructor
  · intro hlen
    rw [parse_request_line]
    cases h1 : ctokens line with
    | nil => rfl
    | cons a l1 =>
      cases h2 : l1 with
      | nil => rfl
      | cons b l2 =>
        cases h3 : l2 with
        | nil => rfl
        | cons c l3 =>
          rw [h1, h2, h3] at hlen
          simp only [List.length_cons] at hlen
          omega
  · intro m u v rest hts
    refine ⟨?_, ?_, ?_⟩ <;> rw [parse_request_line, hts] <;> dsimp only
    · intro hm
      simp [hm]
    · intro hm hvv
      simp [hm, hvv]
    · intro hm hvv
      simp [hm, hvv]

/-- Witness for C4 on the three outcome classes. -/
theorem request_line_outcomes_witness :
    ((ctokens (str ("GET /x"))).length < 3 ∧
     parse_request_line (str ("HTTP/1.0")) (str ("GET /x")) = .error BAD_REQUEST) ∧
    (ctokens (str ("PUT /x HTTP/1.0")) = [str ("PUT"), str ("/x"), str ("HTTP/1.0")] ∧
     parse_request_line (str ("HTTP/1.0")) (str ("PUT /x HTTP/1.0")) =
       .error METHOD_NOT_ALLOWED) ∧
    parse_request_line (str ("HTTP/1.0")) (str ("GET /x HTTP/1.0")) =
      .ok ⟨str ("GET"), str ("/x"), str ("HTTP/1.0"), [], -1, []⟩ :=
  ⟨⟨by decide, (request_line_outcomes (str ("HTTP/1.0")) (str ("GET /x"))).1 (by decide)⟩,
   ⟨by decide,
    ((request_line_outcomes (str ("HTTP/1.0")) (str ("PUT /x HTTP/1.0"))).2
      (str ("PUT")) (str ("/x")) (str ("HTTP/1.0")) [] (by decide)).1 (by decide)⟩,
   ((request_line_outcomes (str ("HTTP/1.0")) (str ("GET /x HTTP/1.0"))).2
      (str ("GET")) (str ("/x")) (str ("HTTP/1.0")) [] (by decide)).2.2 (by decide) (by decide)⟩

theorem parse_header_some (req : http_request_t) (line : List Nat) (req' : http_request_t)
    (h : parse_header req line = some req') :
    ∃ hd, header_of line = some hd ∧ req' = { req with headers := hd :: req.headers } := by
  rw [parse_header] at h
  cases hh : header_of line with
  | none => rw [hh] at h; exact absurd h (by simp)
  | some hd =>
    rw [hh] at h
    simp at h
    exact ⟨hd, rfl, h.symm⟩

theorem foldHeaders_some : ∀ (lines : List (List Nat)) (req reqH : http_request_t),
    foldHeaders req lines = some reqH →
    reqH = { req with headers := (lines.filterMap header_of).reverse ++ req.headers } := by
  intro lines
  induction lines with
  | nil =>
    intro req reqH h
    simp only [foldHeaders] at h
    obtain rfl : req = reqH := by injection h
    simp
  | cons l ls ih =>
    intro req reqH h
    cases hp : parse_header req l with
    | none =>
      rw [foldHeaders, hp] at h
      exact absurd h (by simp)
    | some req1 =>
      rw [foldHeaders, hp] at h
      obtain ⟨hd, hh, hreq1⟩ := parse_header_some _ _ _ hp
      have hrec := ih req1 reqH h
      subst hreq1
      rw [hrec]
      simp [List.filterMap_cons, hh]

/-- Claim C7: each successfully parsed header line is prepended to the
front of the header list, so after parsing a sequence of lines the list
holds the entries in reverse parse order, and the first-match lookup
returns the entry of the textually last line whose key matches. -/
theorem header_list_order :
    (∀ (req : http_request_t) (line : List Nat) (req' : http_request_t),
        parse_header req line = some req' →
        ∃ hd, header_of line = some hd ∧ req'.headers = hd :: req.headers) ∧
    (∀ (lines : List (List Nat)) (req0 reqH : http_request_t),
        req0.headers = [] → foldHeaders req0 lines = some reqH →
        reqH.headers = (lines.filterMap header_of).reverse ∧
        (∀ key, get_request_header reqH key =
          (((lines.filterMap header_of).filter (fun hd => hd.key == key)).getLast?).map
            http_header_t.val)) := by
  constructor
  · intro req line req' h
    obtain ⟨hd, hh, hreq⟩ := parse_header_some req line req' h
    exact ⟨hd, hh, by rw [hreq]⟩
  · intro lines req0 reqH h0 hf
    have hfold := foldHeaders_some lines req0 reqH hf
    subst hfold
    refine ⟨by simp [h0], ?_⟩
    intro key
    rw [get_request_header]
    simp only [h0, List.append_nil]
    rw [find?_filter_getLast]

/-- Witness for C7: two headers with the same key; lookup returns the
textually last one. -/
theorem header_list_order_witness :
    (((⟨[], [], [], [], -1, []⟩ : http_request_t).headers = []) ∧
     foldHeaders ⟨[], [], [], [], -1, []⟩ [str ("A: 1"), str ("A: 2")] =
       some ⟨[], [], [], [⟨str ("A"), str ("2")⟩, ⟨str ("A"), str ("1")⟩], -1, []⟩) ∧
    (⟨[], [], [], [⟨str ("A"), str ("2")⟩, ⟨str ("A"), str ("1")⟩], -1, []⟩
        : http_request_t).headers =
      ([str ("A: 1"), str ("A: 2")].filterMap header_of).reverse ∧
    (∀ key, get_request_header
        ⟨[], [], [], [⟨str ("A"), str ("2")⟩, ⟨str ("A"), str ("1")⟩], -1, []⟩ key =
      ((([str ("A: 1"), str ("A: 2")].filterMap header_of).filter
          (fun hd => hd.key == key)).getLast?).map http_header_t.val) :=
  ⟨⟨by decide, by decide⟩,
   (header_list_order.2 [str ("A: 1"), str ("A: 2")] ⟨[], [], [], [], -1, []⟩
     ⟨[], [], [], [⟨str ("A"), str ("2")⟩, ⟨str ("A"), str ("1")⟩], -1, []⟩
     (by decide) (by decide))⟩

/-- Claim C5, corrected to require a positive content length: with a
POST request whose headers are parsed and whose content length is n with
n at least 1, http_parse does not dispatch while fewer than n unread
bytes are available and returns 0 leaving the state unchanged; once n
bytes are available the body is the view of the next n input bytes, the
read cursor advances past them, and handle_post is dispatched, which
unconditionally returns 501, surfaced as an error response.  With n = 0
the source never dispatches (see the counterexample), contrary to the
claim as stated. -/
theorem post_body_dispatch (hget hhead : http_request_t → Int) (hv : List Nat)
    (req : http_request_t) (n : Nat) (buf : List Nat)
    (hcl : req.content_len = (n : Int)) (hn : 1 ≤ n) :
    (∀ r, handle_post r = NOT_IMPLEMENTED) ∧
    (buf.length < n →
      http_parse hget hhead hv ⟨some req, buf⟩ = (0, ⟨some req, buf⟩, [])) ∧
    (n ≤ buf.length →
      http_parse hget hhead hv ⟨some req, buf⟩ =
        (-1, ⟨none, buf.drop n⟩,
         [.dispatched { req with body := buf.take n } NOT_IMPLEMENTED,
          .errorResponse NOT_IMPLEMENTED])) := by
  have hcl' : ¬ req.content_len = -1 := by rw [hcl]; omega
  have hfell : header_loop hget hhead req buf = .fell req buf := by
    rw [header_loop, if_neg hcl']
  refine ⟨fun r => rfl, ?_, ?_⟩
  · intro hlt
    show run_loop hget hhead req buf = _
    rw [run_loop, hfell]
    dsimp only
    rw [body_section, if_pos (by rw [hcl]; omega), if_neg (by rw [hcl]; omega)]
  · intro hge
    show run_loop hget hhead req buf = _
    rw [run_loop, hfell]
    dsimp only
    rw [body_section, if_pos (by rw [hcl]; omega), if_pos (by rw [hcl]; omega)]
    rw [if_pos (by rw [handle_post]; decide)]
    simp [hcl, handle_post]

/-- Witness for C5 at content length 3 with the body available. -/
theorem post_body_dispatch_witness :
    ((⟨str ("POST"), str ("/"), str ("HTTP/1.1"),
        [⟨str ("Content-Length"), str ("3")⟩], (3 : Int), []⟩
          : http_request_t).content_len = ((3 : Nat) : Int) ∧
      (1 : Nat) ≤ 3 ∧ (3 : Nat) ≤ (str ("abc")).length) ∧
    http_parse (fun _ => 0) (fun _ => 0) (str ("HTTP/1.1"))
      ⟨some ⟨str ("POST"), str ("/"), str ("HTTP/1.1"),
        [⟨str ("Content-Length"), str ("3")⟩], (3 : Int), []⟩, str ("abc")⟩ =
      (-1, ⟨none, (str ("abc")).drop 3⟩,
       [.dispatched { (⟨str ("POST"), str ("/"), str ("HTTP/1.1"),
           [⟨str ("Content-Length"), str ("3")⟩], (3 : Int), []⟩ : http_request_t) with
           body := (str ("abc")).take 3 } NOT_IMPLEMENTED,
        .errorResponse NOT_IMPLEMENTED]) :=
  ⟨⟨by decide, by decide, by decide⟩,
   (post_body_dispatch (fun _ => 0) (fun _ => 0) (str ("HTTP/1.1"))
     ⟨str ("POST"), str ("/"), str ("HTTP/1.1"),
       [⟨str ("Content-Length"), str ("3")⟩], (3 : Int), []⟩ 3 (str ("abc"))
     (by decide) (by decide)).2.2 (by decide)⟩

/-- Counterexample to claim C5 as stated: with a valid content length of
0 and every needed byte available (zero bytes are needed), http_parse
never dispatches the POST handler: it returns 0, leaves the request
pending and emits no event, for ever. -/
theorem post_body_dispatch_cex :
    http_parse (fun _ => 0) (fun _ => 0) (str ("HTTP/1.1"))
      ⟨some ⟨str ("POST"), str ("/"), str ("HTTP/1.1"),
        [⟨str ("Content-Length"), str ("0")⟩], (0 : Int), []⟩, str ("xyz")⟩ =
      (0, ⟨some ⟨str ("POST"), str ("/"), str ("HTTP/1.1"),
        [⟨str ("Content-Length"), str ("0")⟩], (0 : Int), []⟩, str ("xyz")⟩, []) := by
  show run_loop _ _ _ _ = _
  rw [run_loop, header_loop, if_neg (by decide)]
  dsimp only
  rw [body_section, if_neg (by decide)]

theorem readRaw_noLF : ∀ (p : List Nat), (∀ c ∈ p, c ≠ 10) → readRaw p = none := by
  intro p hp
  induction p with
  | nil => rfl
  | cons c rest ih =>
    rw [readRaw, if_neg (hp c (by simp))]
    rw [ih (fun x hx => hp x (by simp [hx]))]

theorem readRaw_append : ∀ (buf raw rv : List Nat) (rpf : rv.length < buf.length) (e : List Nat),
    readRaw buf = some (raw, ⟨rv, rpf⟩) →
    ∃ pf, readRaw (buf ++ e) = some (raw, ⟨rv ++ e, pf⟩) := by
  intro buf
  induction buf with
  | nil => intro raw rv rpf e h; exact absurd rpf (by simp)
  | cons c rest ih =>
    intro raw rv rpf e h
    rw [readRaw] at h
    by_cases hc : c = 10
    · rw [if_pos hc] at h
      rw [Option.some.injEq, Prod.mk.injEq, Subtype.mk.injEq] at h
      obtain ⟨h1, h2⟩ := h
      subst h1
      subst h2
      subst hc
      refine ⟨by simp, ?_⟩
      show readRaw (10 :: (rest ++ e)) = _
      rw [readRaw, if_pos rfl]
    · rw [if_neg hc] at h
      cases hr : readRaw rest with
      | none => rw [hr] at h; exact absurd h (by simp)
      | some pr =>
        obtain ⟨l, rr⟩ := pr
        obtain ⟨rv1, rpf1⟩ := rr
        rw [hr] at h
        rw [Option.some.injEq, Prod.mk.injEq, Subtype.mk.injEq] at h
        obtain ⟨h1, h2⟩ := h
        subst h1
        subst h2
        obtain ⟨pf, hre⟩ := ih l rv1 rpf1 e hr
        refine ⟨?_, ?_⟩
        · simp only [List.length_append, List.length_cons]
          omega
        · show readRaw (c :: (rest ++ e)) = _
          rw [readRaw, if_neg hc, hre]

theorem readRaw_line : ∀ (l : List Nat), (∀ c ∈ l, c ≠ 10) → ∀ (X : List Nat),
    ∃ pf, readRaw (l ++ 10 :: X) = some (l, ⟨X, pf⟩) := by
  intro l hl
  induction l with
  | nil =>
    intro X
    refine ⟨by simp, ?_⟩
    show readRaw (10 :: X) = _
    rw [readRaw, if_pos rfl]
  | cons c rest ih =>
    intro X
    obtain ⟨pf, hre⟩ := ih (fun x hx => hl x (by simp [hx])) X
    refine ⟨?_, ?_⟩
    · simp only [List.length_append, List.length_cons]
      omega
    · show readRaw (c :: (rest ++ 10 :: X)) = _
      rw [readRaw, if_neg (hl c (by simp)), hre]

theorem stripCR_keep {l : List Nat} (h : l.getLast? ≠ some 13) : stripCR l = l := by
  rw [stripCR, if_neg h]

theorem stripCR_cr (l : List Nat) : stripCR (l ++ [13]) = l := by
  rw [stripCR, if_pos (by rw [List.getLast?_concat]), List.dropLast_concat]

theorem lineOK_noLF {l : List Nat} (h : lineOK l) : ∀ c ∈ l, c ≠ 10 := by
  intro c hc hcon
  subst hcon
  exact h.1 hc

theorem readln_noLF {p : List Nat} (hp : ∀ c ∈ p, c ≠ 10) : readln p = none := by
  rw [readln, readRaw_noLF p hp]
  rfl

theorem readln_some_inv {buf line rest : List Nat} (h : readln buf = some (line, rest)) :
    ∃ raw pf, readRaw buf = some (raw, ⟨rest, pf⟩) ∧ stripCR raw = line := by
  rw [readln] at h
  cases hr : readRaw buf with
  | none => rw [hr] at h; exact absurd h (by simp)
  | some pr =>
    obtain ⟨raw, rst⟩ := pr
    obtain ⟨rv, rpf⟩ := rst
    rw [hr] at h
    simp only [Option.map_some', Option.some.injEq, Prod.mk.injEq] at h
    obtain ⟨h1, h2⟩ := h
    subst h2
    exact ⟨raw, rpf, rfl, h1⟩

theorem readln_none_inv {buf : List Nat} (h : readln buf = none) : readRaw buf = none := by
  rw [readln] at h
  cases hr : readRaw buf with
  | none => rfl
  | some pr => rw [hr] at h; exact absurd h (by simp)

theorem readln_append {buf line rest : List Nat} (e : List Nat)
    (h : readln buf = some (line, rest)) : readln (buf ++ e) = some (line, rest ++ e) := by
  obtain ⟨raw, pf, hr, hs⟩ := readln_some_inv h
  obtain ⟨pf2, hr2⟩ := readRaw_append buf raw rest pf e hr
  rw [readln, hr2]
  simp [hs]

/-- Reading one well-formed line with its terminator off the front. -/
theorem readln_wireline {l t : List Nat} (hl : lineOK l) (ht : eolOK t) (X : List Nat) :
    readln (l ++ (t ++ X)) = some (l, X) := by
  rcases ht with ht | ht
  · subst ht
    obtain ⟨pf, hr⟩ := readRaw_line l (lineOK_noLF hl) X
    show readln (l ++ 10 :: X) = some (l, X)
    rw [readln, hr]
    simp [stripCR_keep hl.2]
  · subst ht
    obtain ⟨pf, hr⟩ := readRaw_line (l ++ [13]) (by
      intro c hc
      rcases List.mem_append.mp hc with h1 | h1
      · exact lineOK_noLF hl c h1
      · simp at h1
        omega) X
    have hEq : l ++ ([13, 10] ++ X) = (l ++ [13]) ++ 10 :: X := by simp
    rw [hEq, readln, hr]
    simp [stripCR_cr]

/-- One unfolding of the header loop when a complete line is available. -/
theorem header_loop_line {hget hhead : http_request_t → Int} {req : http_request_t}
    {buf line rest : List Nat} (hcl : req.content_len = -1)
    (h : readln buf = some (line, rest)) :
    header_loop hget hhead req buf =
      (if line = [] then
        (if strcicmp req.method (str ("GET")) = true then after_handler req (hget req) rest
         else if strcicmp req.method (str ("POST")) = true then
           (match get_request_header req (str ("Content-Length")) with
            | none => .finished (-1) none rest [.errorResponse LENGTH_REQUIRED]
            | some v =>
              if v.length = 0 then .finished BAD_REQUEST (some req) rest []
              else if v.any (fun c => decide (c < 48 ∨ 57 < c)) then
                .finished (-1) none rest [.errorResponse BAD_REQUEST]
              else .fell { req with content_len := (natFromDigits v : Int) } rest)
         else if strcicmp req.method (str ("HEAD")) = true then after_handler req (hhead req) rest
         else after_handler req 0 rest)
      else
        (match parse_header req line with
         | none => LoopRes.finished (-1) none rest [.errorResponse BAD_REQUEST]
         | some req' => header_loop hget hhead req' rest)) := by
  obtain ⟨raw, pf, hr, hs⟩ := readln_some_inv h
  rw [header_loop, if_pos hcl, hr]
  dsimp only
  rw [hs]

theorem header_loop_cl {hget hhead : http_request_t → Int} {req : http_request_t}
    {buf : List Nat} (h : ¬ req.content_len = -1) :
    header_loop hget hhead req buf = .fell req buf := by
  rw [header_loop, if_neg h]

theorem header_loop_noline {hget hhead : http_request_t → Int} {req : http_request_t}
    {buf : List Nat} (hcl : req.content_len = -1) (h : readln buf = none) :
    header_loop hget hhead req buf = .fell req buf := by
  rw [header_loop, if_pos hcl, readln_none_inv h]

theorem after_handler_ne_fell (req : http_request_t) (r : Int) (b : List Nat)
    (q : http_request_t) (w : List Nat) : after_handler req r b ≠ .fell q w := by
  rw [after_handler]
  split
  · simp
  · split <;> simp

theorem after_handler_ev_ne_nil {req : http_request_t} {r ret : Int}
    {b buf2 : List Nat} {reqA : Option http_request_t} {ev : List Event}
    (h : after_handler req r b = .finished ret reqA buf2 ev) : ev ≠ [] := by
  rw [after_handler] at h
  split at h
  · injection h with h1 h2 h3 h4
    rw [← h4]
    simp
  · split at h <;>
    · injection h with h1 h2 h3 h4
      rw [← h4]
      simp

theorem natFromDigits_ne_neg (v : List Nat) : ¬ ((natFromDigits v : Int) = -1) := by omega

theorem header_loop_restart (hget hhead : http_request_t → Int) :
    ∀ n (req : http_request_t) (buf : List Nat), buf.length ≤ n →
      ∀ req' buf' (e : List Nat),
      header_loop hget hhead req buf = .fell req' buf' →
      header_loop hget hhead req (buf ++ e) = header_loop hget hhead req' (buf' ++ e) := by
  intro n
  induction n with
  | zero =>
    intro req buf hlen req' buf' e h
    have hbuf : buf = [] := List.eq_nil_of_length_eq_zero (by omega)
    subst hbuf
    by_cases hcl : req.content_len = -1
    · rw [header_loop_noline hcl (by rw [readln]; rfl)] at h
      injection h with h1 h2
      subst h1; subst h2
      rfl
    · rw [header_loop_cl hcl] at h
      injection h with h1 h2
      subst h1; subst h2
      rfl
  | succ n ih =>
    intro req buf hlen req' buf' e h
    by_cases hcl : req.content_len = -1
    · cases hln : readln buf with
      | none =>
        rw [header_loop_noline hcl hln] at h
        injection h with h1 h2
        subst h1; subst h2
        rfl
      | some pr =>
        obtain ⟨line, rest⟩ := pr
        have hlnA : readln (buf ++ e) = some (line, rest ++ e) := readln_append e hln
        rw [header_loop_line hcl hln] at h
        rw [header_loop_line hcl hlnA]
        by_cases hblank : line = []
        · rw [if_pos hblank] at h
          rw [if_pos hblank]
          by_cases hG : strcicmp req.method (str ("GET")) = true
          · rw [if_pos hG] at h
            exact absurd h (after_handler_ne_fell _ _ _ _ _)
          · rw [if_neg hG] at h
            rw [if_neg hG]
            by_cases hP : strcicmp req.method (str ("POST")) = true
            · rw [if_pos hP] at h
              rw [if_pos hP]
              cases hv : get_request_header req (str ("Content-Length")) with
              | none =>
                rw [hv] at h
                exact absurd h (by simp)
              | some v =>
                rw [hv] at h
                dsimp only at h ⊢
                by_cases hv0 : v.length = 0
                · rw [if_pos hv0] at h
                  exact absurd h (by simp)
                · rw [if_neg hv0] at h
                  rw [if_neg hv0]
                  by_cases hany : (v.any fun c => decide (c < 48 ∨ 57 < c)) = true
                  · rw [if_pos hany] at h
                    exact absurd h (by simp)
                  · rw [if_neg hany] at h
                    rw [if_neg hany]
                    injection h with h1 h2
                    subst h2
                    rw [← h1]
                    rw [header_loop_cl (by exact natFromDigits_ne_neg v)]
            · rw [if_neg hP] at h
              by_cases hH : strcicmp req.method (str ("HEAD")) = true
              · rw [if_pos hH] at h
                exact absurd h (after_handler_ne_fell _ _ _ _ _)
              · rw [if_neg hH] at h
                exact absurd h (after_handler_ne_fell _ _ _ _ _)
        · rw [if_neg hblank] at h
          rw [if_neg hblank]
          cases hp : parse_header req line with
          | none =>
            rw [hp] at h
            exact absurd h (by simp)
          | some req2 =>
            rw [hp] at h
            dsimp only at h ⊢
            have hrest : rest.length ≤ n := by
              obtain ⟨raw, pf, hr, hs⟩ := readln_some_inv hln
              omega
            exact ih req2 rest hrest req' buf' e h
    · rw [header_loop_cl hcl] at h
      injection h with h1 h2
      subst h1; subst h2
      rfl

theorem body_section_zero_inv {req : http_request_t} {buf : List Nat} {c' : http_client_t}
    (h : body_section req buf = (0, c', [])) : c' = ⟨some req, buf⟩ := by
  rw [body_section] at h
  split at h
  · split at h
    · split at h
      · exact absurd h (by simp)
      · split at h
        · exact absurd h (by simp)
        · exact absurd h (by simp)
    · injection h with h1 h23
      injection h23 with h2 h3
      exact h2.symm
  · injection h with h1 h23
    injection h23 with h2 h3
    exact h2.symm

theorem header_loop_finished_nil_inv (hget hhead : http_request_t → Int) :
    ∀ n (req : http_request_t) (buf : List Nat), buf.length ≤ n →
      ∀ ret reqA buf2,
      header_loop hget hhead req buf = .finished ret reqA buf2 [] → ret = BAD_REQUEST := by
  intro n
  induction n with
  | zero =>
    intro req buf hlen ret reqA buf2 h
    have hbuf : buf = [] := List.eq_nil_of_length_eq_zero (by omega)
    subst hbuf
    by_cases hcl : req.content_len = -1
    · rw [header_loop_noline hcl (by rw [readln]; rfl)] at h
      exact absurd h (by simp)
    · rw [header_loop_cl hcl] at h
      exact absurd h (by simp)
  | succ n ih =>
    intro req buf hlen ret reqA buf2 h
    by_cases hcl : req.content_len = -1
    · cases hln : readln buf with
      | none =>
        rw [header_loop_noline hcl hln] at h
        exact absurd h (by simp)
      | some pr =>
        obtain ⟨line, rest⟩ := pr
        rw [header_loop_line hcl hln] at h
        by_cases hblank : line = []
        · rw [if_pos hblank] at h
          by_cases hG : strcicmp req.method (str ("GET")) = true
          · rw [if_pos hG] at h
            exact absurd (after_handler_ev_ne_nil h) (by simp)
          · rw [if_neg hG] at h
            by_cases hP : strcicmp req.method (str ("POST")) = true
            · rw [if_pos hP] at h
              cases hv : get_request_header req (str ("Content-Length")) with
              | none =>
                rw [hv] at h
                exact absurd h (by simp)
              | some v =>
                rw [hv] at h
                dsimp only at h
                by_cases hv0 : v.length = 0
                · rw [if_pos hv0] at h
                  injection h with h1 h2
                  exact h1.symm
                · rw [if_neg hv0] at h
                  by_cases hany : (v.any fun c => decide (c < 48 ∨ 57 < c)) = true
                  · rw [if_pos hany] at h
                    exact absurd h (by simp)
                  · rw [if_neg hany] at h
                    exact absurd h (by simp)
            · rw [if_neg hP] at h
              by_cases hH : strcicmp req.method (str ("HEAD")) = true
              · rw [if_pos hH] at h
                exact absurd (after_handler_ev_ne_nil h) (by simp)
              · rw [if_neg hH] at h
                exact absurd (after_handler_ev_ne_nil h) (by simp)
        · rw [if_neg hblank] at h
          cases hp : parse_header req line with
          | none =>
            rw [hp] at h
            exact absurd h (by simp)
          | some req2 =>
            rw [hp] at h
            dsimp only at h
            have hrest : rest.length ≤ n := by
              obtain ⟨raw, pf, hr, hs⟩ := readln_some_inv hln
              omega
            exact ih req2 rest hrest ret reqA buf2 h
    · rw [header_loop_cl hcl] at h
      exact absurd h (by simp)

theorem http_parse_none_noline {hget hhead : http_request_t → Int} {hv p : List Nat}
    (h : readln p = none) :
    http_parse hget hhead hv ⟨none, p⟩ = (0, ⟨none, p⟩, []) := by
  rw [http_parse]
  dsimp only
  rw [readln_none_inv h]

theorem http_parse_none_line {hget hhead : http_request_t → Int} {hv p line rest : List Nat}
    (h : readln p = some (line, rest)) :
    http_parse hget hhead hv ⟨none, p⟩ =
      (if line = [] then (0, ⟨none, rest⟩, [])
       else
         match parse_request_line hv line with
         | .error code => (-1, ⟨none, rest⟩, [.errorResponse code])
         | .ok req0 => run_loop hget hhead req0 rest) := by
  obtain ⟨raw, pf, hr, hs⟩ := readln_some_inv h
  rw [http_parse]
  dsimp only
  rw [hr]
  dsimp only
  rw [hs]

theorem run_loop_eq (hget hhead : http_request_t → Int) (req : http_request_t)
    (buf : List Nat) :
    run_loop hget hhead req buf =
      (match header_loop hget hhead req buf with
       | .finished ret reqA buf' ev => (ret, ⟨reqA, buf'⟩, ev)
       | .fell req' buf' => body_section req' buf') := rfl

/-- Restart of the parser after a blocked call: appending more input to the
post-state and calling again behaves like calling once on the whole
input. -/
theorem http_parse_restart (hget hhead : http_request_t → Int) (hv p e : List Nat)
    (c' : http_client_t)
    (hrun : http_parse hget hhead hv ⟨none, p⟩ = (0, c', []))
    (hnb : ∀ line rest, readln p = some (line, rest) → line ≠ []) :
    http_parse hget hhead hv ⟨c'.req, c'.inbuf ++ e⟩ = http_parse hget hhead hv ⟨none, p ++ e⟩ := by
  cases hln : readln p with
  | none =>
    rw [http_parse_none_noline hln] at hrun
    injection hrun with h1 h23
    injection h23 with h2 h3
    subst h2
    rfl
  | some pr =>
    obtain ⟨line, rest⟩ := pr
    have hlnA : readln (p ++ e) = some (line, rest ++ e) := readln_append e hln
    have hne : line ≠ [] := hnb line rest hln
    rw [http_parse_none_line hln, if_neg hne] at hrun
    rw [http_parse_none_line hlnA, if_neg hne]
    cases hpl : parse_request_line hv line with
    | error code =>
      rw [hpl] at hrun
      exact absurd hrun (by simp)
    | ok req0 =>
      rw [hpl] at hrun
      dsimp only at hrun ⊢
      rw [run_loop_eq] at hrun
      cases hhl : header_loop hget hhead req0 rest with
      | finished ret reqA buf2 ev =>
        rw [hhl] at hrun
        dsimp only at hrun
        obtain ⟨h1, h2, h3⟩ : ret = 0 ∧ (⟨reqA, buf2⟩ : http_client_t) = c' ∧ ev = [] := by
          injection hrun with ha hb
          injection hb with hb1 hb2
          exact ⟨ha, hb1, hb2⟩
        subst h3
        have := header_loop_finished_nil_inv hget hhead rest.length req0 rest (le_refl _)
          ret reqA buf2 hhl
        rw [this] at h1
        exact absurd h1 (by rw [BAD_REQUEST]; omega)
      | fell req1 buf1 =>
        rw [hhl] at hrun
        dsimp only at hrun
        have hc' : c' = ⟨some req1, buf1⟩ := by
          apply body_section_zero_inv
          exact hrun
        subst hc'
        show run_loop hget hhead req1 (buf1 ++ e) = _
        rw [run_loop_eq, run_loop_eq hget hhead req0 (rest ++ e)]
        rw [header_loop_restart hget hhead rest.length req0 rest (le_refl _) req1 buf1 e hhl]

theorem strcicmp_length {a b : List Nat} (h : strcicmp a b = true) : a.length = b.length := by
  rw [strcicmp, beq_iff_eq] at h
  have := congrArg List.length h
  simpa using this

theorem post_not_get {m : List Nat} (h : strcicmp m (str ("POST")) = true) :
    strcicmp m (str ("GET")) = false := by
  cases hg : strcicmp m (str ("GET")) with
  | false => rfl
  | true =>
    have h1 := strcicmp_length h
    have h2 := strcicmp_length hg
    rw [h1] at h2
    exact absurd h2 (by decide)

theorem parse_header_preserves {req req' : http_request_t} {l : List Nat}
    (h : parse_header req l = some req') :
    req'.content_len = req.content_len ∧ req'.method = req.method := by
  rw [parse_header] at h
  cases hh : header_of l with
  | none => rw [hh] at h; exact absurd h (by simp)
  | some hd =>
    rw [hh] at h
    injection h with h1
    rw [← h1]
    exact ⟨rfl, rfl⟩

theorem parse_header_nil (req : http_request_t) : parse_header req [] = none := rfl

theorem foldHeaders_cons_inv {req reqH : http_request_t} {l : List Nat}
    {ls : List (List Nat)} (h : foldHeaders req (l :: ls) = some reqH) :
    ∃ req', parse_header req l = some req' ∧ foldHeaders req' ls = some reqH := by
  rw [foldHeaders] at h
  cases hp : parse_header req l with
  | none => rw [hp] at h; exact absurd h (by simp)
  | some req' =>
    rw [hp] at h
    exact ⟨req', rfl, h⟩

theorem noLF_of_proper_prefix {ldl p a : List Nat} (hn : 10 ∉ ldl)
    (he : p ++ a = ldl ++ [10]) (ha : a ≠ []) : ∀ c ∈ p, c ≠ 10 := by
  intro c hc
  have hlen : p.length ≤ ldl.length := by
    have := congrArg List.length he
    simp at this
    have : p.length + a.length = ldl.length + 1 := by simpa using this
    have hal : 1 ≤ a.length := by
      cases a with
      | nil => exact absurd rfl ha
      | cons x xs => simp
    omega
  have hp : p = ldl.take p.length := by
    have h1 : (p ++ a).take p.length = p := by simp
    rw [he] at h1
    rw [List.take_append_of_le_length hlen] at h1
    exact h1.symm
  intro hc10
  rw [hp] at hc
  subst hc10
  exact hn (List.take_subset _ _ hc)

theorem prefix_readln {l te : List Nat} (hl : lineOK l) (ht : eolOK te) :
    ∀ (p t X : List Nat), p ++ t = l ++ (te ++ X) → t ≠ [] →
      readln p = none ∨ ∃ q, p = l ++ (te ++ q) ∧ q ++ t = X ∧ readln p = some (l, q) := by
  intro p t X hsplit htne
  have hsplit2 : p ++ t = (l ++ te) ++ X := by rw [hsplit, List.append_assoc]
  rcases List.append_eq_append_iff.mp hsplit2 with ⟨a, ha1, ha2⟩ | ⟨q, hq1, hq2⟩
  · cases hae : a with
    | nil =>
      subst hae
      right
      have hp : p = l ++ (te ++ []) := by
        rw [List.append_nil] at ha1
        rw [← ha1]
        simp
      refine ⟨[], hp, ?_, ?_⟩
      · rw [ha2]
        simp
      · rw [hp]
        exact readln_wireline hl ht []
    | cons x xs =>
      left
      apply readln_noLF
      rcases ht with h10 | h1310
      · subst h10
        exact noLF_of_proper_prefix hl.1 ha1.symm (by rw [hae]; simp)
      · subst h1310
        have hld : 10 ∉ l ++ [13] := by
          intro hm
          rcases List.mem_append.mp hm with hm | hm
          · exact hl.1 hm
          · simp at hm
        have ha1r : p ++ a = (l ++ [13]) ++ [10] := by
          rw [← ha1]
          simp
        exact noLF_of_proper_prefix hld ha1r (by rw [hae]; simp)
  · right
    refine ⟨q, by rw [hq1, List.append_assoc], hq2.symm, ?_⟩
    rw [hq1, List.append_assoc]
    exact readln_wireline hl ht q

theorem hjoin_cons (l te : List Nat) (hts : List (List Nat × List Nat)) :
    hjoin ((l, te) :: hts) = (l ++ te) ++ hjoin hts := by
  rw [hjoin, hjoin]
  simp

theorem lineOK_nil : lineOK [] := by
  constructor
  · simp
  · simp

theorem hjoin_nil : hjoin ([] : List (List Nat × List Nat)) = [] := rfl

/-- Any proper prefix of the wire bytes of the header section, blank line
and body of a well-formed request leaves the header loop blocked or the
body incomplete: http_parse returns 0 with the request pending and emits
nothing. -/
theorem header_prefix_blocks (hget hhead : http_request_t → Int) :
    ∀ (hts : List (List Nat × List Nat)) (req reqH : http_request_t)
      (q t bleol body : List Nat),
      (∀ p ∈ hts, lineOK p.1 ∧ eolOK p.2) → eolOK bleol →
      q ++ t = hjoin hts ++ (bleol ++ body) → t ≠ [] →
      req.content_len = -1 →
      foldHeaders req (hts.map Prod.fst) = some reqH →
      (strcicmp req.method (str ("POST")) = true →
        ∃ v, get_request_header reqH (str ("Content-Length")) = some v ∧ v ≠ [] ∧
          (∀ c ∈ v, 48 ≤ c ∧ c ≤ 57) ∧ body.length = natFromDigits v) →
      (strcicmp req.method (str ("POST")) = false → body = []) →
      ∃ req2 buf2, run_loop hget hhead req q = (0, ⟨some req2, buf2⟩, []) := by
  intro hts
  induction hts with
  | nil =>
    intro req reqH q t bleol body hall hbe hsplit htne hcl hfold hP hNP
    have hreq : reqH = req := by
      simp only [List.map_nil, foldHeaders] at hfold
      injection hfold with h
      exact h.symm
    have hsplit2 : q ++ t = [] ++ (bleol ++ body) := by
      rw [hjoin_nil] at hsplit
      exact hsplit
    rcases prefix_readln lineOK_nil hbe q t body hsplit2 htne with hnone | ⟨q2, hq, hq2, hln⟩
    · refine ⟨req, q, ?_⟩
      rw [run_loop_eq, header_loop_noline hcl hnone]
      dsimp only
      rw [body_section, if_neg (by rw [hcl]; decide)]
    · by_cases hPm : strcicmp req.method (str ("POST")) = true
      · obtain ⟨v, hv, hvne, hdig, hlenv⟩ := hP hPm
        rw [hreq] at hv
        have hq2len : q2.length < body.length := by
          have hlq := congrArg List.length hq2
          simp only [List.length_append] at hlq
          have htl : 1 ≤ t.length := by
            cases t with
            | nil => exact absurd rfl htne
            | cons x xs => simp
          omega
        refine ⟨{ req with content_len := (natFromDigits v : Int) }, q2, ?_⟩
        rw [run_loop_eq, header_loop_line hcl hln, if_pos rfl, post_not_get hPm,
          if_neg (by decide), hPm, if_pos rfl, hv]
        dsimp only
        rw [if_neg (fun h => hvne (List.eq_nil_of_length_eq_zero h))]
        have hany : (v.any fun c => decide (c < 48 ∨ 57 < c)) = false := by
          rw [List.any_eq_false]
          intro c hc
          have := hdig c hc
          simp only [decide_eq_true_eq]
          omega
        rw [hany, if_neg (by decide)]
        dsimp only
        rw [body_section]
        by_cases h0 : (0 : Int) < (natFromDigits v : Int)
        · rw [if_pos h0, if_neg ?hnr]
          case hnr =>
            intro hle
            rw [← hlenv] at hle
            have := Nat.cast_le.mp hle
            omega
        · rw [if_neg h0]
      · have hPf : strcicmp req.method (str ("POST")) = false := by
          cases h : strcicmp req.method (str ("POST")) with
          | false => rfl
          | true => exact absurd h hPm
        have hbody := hNP hPf
        rw [hbody] at hq2
        exact absurd (List.append_eq_nil.mp hq2).2 htne
  | cons pr hts ih =>
    obtain ⟨l, te⟩ := pr
    intro req reqH q t bleol body hall hbe hsplit htne hcl hfold hP hNP
    have hl : lineOK l := (hall (l, te) (by simp)).1
    have hte : eolOK te := (hall (l, te) (by simp)).2
    have hsplit2 : q ++ t = l ++ (te ++ (hjoin hts ++ (bleol ++ body))) := by
      rw [hsplit, hjoin_cons]
      simp [List.append_assoc]
    obtain ⟨req1, hph, hfold1⟩ := foldHeaders_cons_inv (by simpa using hfold)
    have hlne : l ≠ [] := by
      intro h
      rw [h, parse_header_nil] at hph
      exact absurd hph (by simp)
    rcases prefix_readln hl hte q t _ hsplit2 htne with hnone | ⟨q2, hq, hq2, hln⟩
    · refine ⟨req, q, ?_⟩
      rw [run_loop_eq, header_loop_noline hcl hnone]
      dsimp only
      rw [body_section, if_neg (by rw [hcl]; decide)]
    · have hpres := parse_header_preserves hph
      have hcl1 : req1.content_len = -1 := by rw [hpres.1, hcl]
      obtain ⟨req2, buf2, hrun⟩ := ih req1 reqH q2 t bleol body
        (fun p hp => hall p (by simp [hp])) hbe hq2 htne hcl1 hfold1
        (by rw [hpres.2]; exact hP) (by rw [hpres.2]; exact hNP)
      refine ⟨req2, buf2, ?_⟩
      rw [run_loop_eq, header_loop_line hcl hln, if_neg hlne, hph]
      dsimp only
      rw [← run_loop_eq]
      exact hrun

theorem parse_request_line_nil (hv : List Nat) :
    parse_request_line hv [] = .error BAD_REQUEST := rfl

theorem parse_request_line_ok_cl {hv rl : List Nat} {req0 : http_request_t}
    (h : parse_request_line hv rl = .ok req0) : req0.content_len = -1 := by
  rw [parse_request_line] at h
  split at h
  · split at h
    · split at h
      · injection h with h1
        rw [← h1]
      · exact absurd h (by simp)
    · exact absurd h (by simp)
  · exact absurd h (by simp)

/-- Any proper prefix of a well-formed request makes http_parse return 0
with no events, and the line it may have consumed was not blank. -/
theorem prefix_blocks (hget hhead : http_request_t → Int) (hv B : List Nat)
    (hWF : WFReq hv B) :
    ∀ p t, p ++ t = B → t ≠ [] →
      ∃ c', http_parse hget hhead hv ⟨none, p⟩ = (0, c', []) ∧
        (∀ line rest, readln p = some (line, rest) → line ≠ []) := by
  obtain ⟨rl, rleol, hts, bleol, body, req0, reqH, hB, hrl, hrleol, hbleol, hall,
    hprl, hfold, hP, hNP⟩ := hWF
  intro p t hsplit htne
  have hsplit2 : p ++ t = rl ++ (rleol ++ (hjoin hts ++ (bleol ++ body))) := by
    rw [hsplit, hB]
    simp [List.append_assoc]
  rcases prefix_readln hrl hrleol p t _ hsplit2 htne with hnone | ⟨q, hqp, hq, hln⟩
  · refine ⟨⟨none, p⟩, http_parse_none_noline hnone, ?_⟩
    intro line rest hsome
    rw [hnone] at hsome
    exact absurd hsome (by simp)
  · have hrlne : rl ≠ [] := by
      intro h
      rw [h, parse_request_line_nil] at hprl
      exact absurd hprl (by simp)
    have hcl0 : req0.content_len = -1 := parse_request_line_ok_cl hprl
    obtain ⟨req2, buf2, hrun⟩ := header_prefix_blocks hget hhead hts req0 reqH
      q t bleol body hall hbleol hq htne hcl0 hfold hP hNP
    refine ⟨⟨some req2, buf2⟩, ?_, ?_⟩
    · rw [http_parse_none_line hln, if_neg hrlne, hprl]
      exact hrun
    · intro line rest hsome
      rw [hln] at hsome
      injection hsome with hpair
      intro hlnil
      apply hrlne
      rw [← hlnil]
      injection hpair with h1 h2

/-- Feeding fragments one call at a time from a state equivalent to a
prefix of a well-formed request reaches the same result as one call on the
whole request. -/
theorem runFrags_chain (hget hhead : http_request_t → Int) (hv B : List Nat)
    (hWF : WFReq hv B) :
    ∀ (fs : List (List Nat)) (c : http_client_t) (p : List Nat),
      (∀ e, http_parse hget hhead hv ⟨c.req, c.inbuf ++ e⟩ =
        http_parse hget hhead hv ⟨none, p ++ e⟩) →
      fs ≠ [] → (∀ f ∈ fs, f ≠ []) → p ++ fs.flatten = B →
      runFrags hget hhead hv c fs =
        ((http_parse hget hhead hv ⟨none, B⟩).2.1,
         (http_parse hget hhead hv ⟨none, B⟩).2.2,
         (http_parse hget hhead hv ⟨none, B⟩).1) := by
  intro fs
  induction fs with
  | nil => intro c p hEq hne hfne hfl; exact absurd rfl hne
  | cons f fs ih =>
    intro c p hEq hne hfne hfl
    cases fs with
    | nil =>
      have hpf : p ++ f = B := by
        simpa using hfl
      have hr : feedFrag hget hhead hv c f = http_parse hget hhead hv ⟨none, B⟩ := by
        rw [feedFrag, hEq f, hpf]
      show ((feedFrag hget hhead hv c f).2.1, (feedFrag hget hhead hv c f).2.2,
        (feedFrag hget hhead hv c f).1) = _
      rw [hr]
    | cons f2 fs2 =>
      have htne : (f2 :: fs2).flatten ≠ [] := by
        have hf2 : f2 ≠ [] := hfne f2 (by simp)
        simp only [List.flatten_cons]
        exact List.append_ne_nil_of_left_ne_nil hf2 _
      have hsplit : (p ++ f) ++ (f2 :: fs2).flatten = B := by
        rw [← hfl]
        simp [List.append_assoc]
      obtain ⟨c', hp0, hnb⟩ := prefix_blocks hget hhead hv B hWF (p ++ f) _ hsplit htne
      have hr : feedFrag hget hhead hv c f = (0, c', []) := by
        rw [feedFrag, hEq f]
        exact hp0
      have hEq2 : ∀ e, http_parse hget hhead hv ⟨c'.req, c'.inbuf ++ e⟩ =
          http_parse hget hhead hv ⟨none, (p ++ f) ++ e⟩ := by
        intro e
        exact http_parse_restart hget hhead hv (p ++ f) e c' hp0 hnb
      have hrest := ih c' (p ++ f) hEq2 (by simp) (fun g hg => hfne g (by simp [hg]))
        (by rw [← hfl]; simp [List.append_assoc])
      show ((runFrags hget hhead hv (feedFrag hget hhead hv c f).2.1 (f2 :: fs2)).1,
        (feedFrag hget hhead hv c f).2.2 ++
          (runFrags hget hhead hv (feedFrag hget hhead hv c f).2.1 (f2 :: fs2)).2.1,
        (runFrags hget hhead hv (feedFrag hget hhead hv c f).2.1 (f2 :: fs2)).2.2) = _
      rw [hr]
      dsimp only
      rw [hrest]
      simp

/-- C1: Fragmentation-invariance of the parser: for every well-formed HTTP
request on the wire, feeding its bytes to http_parse split into arbitrary
nonempty fragments across multiple parse invocations yields the same final
connection state (hence the same parsed request fields), the same dispatch
events, and the same final return value as feeding the entire request in a
single invocation. -/
theorem http_parse_fragmentation_invariance (hget hhead : http_request_t → Int)
    (hv B : List Nat) (frags : List (List Nat))
    (hWF : WFReq hv B) (hne : frags ≠ []) (hfne : ∀ f ∈ frags, f ≠ [])
    (hfl : frags.flatten = B) :
    runFrags hget hhead hv ⟨none, []⟩ frags =
      ((http_parse hget hhead hv ⟨none, B⟩).2.1,
       (http_parse hget hhead hv ⟨none, B⟩).2.2,
       (http_parse hget hhead hv ⟨none, B⟩).1) := by
  apply runFrags_chain hget hhead hv B hWF frags ⟨none, []⟩ []
  · intro e
    rfl
  · exact hne
  · exact hfne
  · simpa using hfl

/-- Witness for C1: a two-fragment split of a well-formed GET request gives
the same outcome as the unsplit request. -/
theorem http_parse_fragmentation_invariance_witness :
    WFReq (str ("HTTP/1.1")) (str ("GET / HTTP/1.1") ++ [13, 10] ++ [13, 10]) ∧
    [str ("GET / HT"), str ("TP/1.1") ++ [13, 10] ++ [13, 10]] ≠ ([] : List (List Nat)) ∧
    [str ("GET / HT"), str ("TP/1.1") ++ [13, 10] ++ [13, 10]].flatten =
      str ("GET / HTTP/1.1") ++ [13, 10] ++ [13, 10] ∧
    runFrags (fun _ => 0) (fun _ => 0) (str ("HTTP/1.1")) ⟨none, []⟩
        [str ("GET / HT"), str ("TP/1.1") ++ [13, 10] ++ [13, 10]] =
      ((http_parse (fun _ => 0) (fun _ => 0) (str ("HTTP/1.1"))
          ⟨none, str ("GET / HTTP/1.1") ++ [13, 10] ++ [13, 10]⟩).2.1,
       (http_parse (fun _ => 0) (fun _ => 0) (str ("HTTP/1.1"))
          ⟨none, str ("GET / HTTP/1.1") ++ [13, 10] ++ [13, 10]⟩).2.2,
       (http_parse (fun _ => 0) (fun _ => 0) (str ("HTTP/1.1"))
          ⟨none, str ("GET / HTTP/1.1") ++ [13, 10] ++ [13, 10]⟩).1) := by
  have hWF : WFReq (str ("HTTP/1.1")) (str ("GET / HTTP/1.1") ++ [13, 10] ++ [13, 10]) := by
    refine ⟨str ("GET / HTTP/1.1"), [13, 10], [], [13, 10], [],
      ⟨str ("GET"), str ("/"), str ("HTTP/1.1"), [], -1, []⟩,
      ⟨str ("GET"), str ("/"), str ("HTTP/1.1"), [], -1, []⟩,
      by decide, ⟨by decide, by decide⟩, Or.inr rfl, Or.inr rfl,
      ?_, rfl, rfl, ?_, fun _ => rfl⟩
    · intro p hp
      exact absurd hp (List.not_mem_nil p)
    · intro h
      exact absurd h (by decide)
  refine ⟨hWF, by decide, by decide, ?_⟩
  exact http_parse_fragmentation_invariance (fun _ => 0) (fun _ => 0)
    (str ("HTTP/1.1")) (str ("GET / HTTP/1.1") ++ [13, 10] ++ [13, 10])
    [str ("GET / HT"), str ("TP/1.1") ++ [13, 10] ++ [13, 10]]
    hWF (by decide) (by decide) (by decide)

end Liso
